import Mathlib

/-!
Verification development for the agent-runtime workflow engine.

This file embeds, as Lean definitions, the parts of the Rust source that the
verified properties speak about:

* `src/llm/types.rs` — chat data model (`Role`, `ChatMessage`, `ToolCall`);
* `src/tool_loop_detection.rs` — the tool-call loop detector;
* `src/context.rs`, `src/context_strategies.rs` — the context-manager family;
* `src/retry.rs` — `RetryPolicy::execute`;
* `src/event.rs` — the event stream (`append_with_parent`, validation);
* `src/runtime.rs` — `Runtime::execute_with_parent`;
* `src/agent.rs` — the agent's bounded model/tool loop.

Modelling conventions, used throughout:

* JSON values (`serde_json::Value`) are modelled by the inductive `Json`
  below, with integer numbers only (every argument/result value appearing in
  the verified properties is an integer, a string, or a composite of those).
* Rust `usize`/`u32`/`u64` arithmetic is modelled on `Nat` (the quantities
  involved — message counts, token estimates, offsets, attempt counts — stay
  far below the overflow range on every input considered here, and the
  source's `saturating_sub` is exactly `Nat` subtraction).
* `String::len` (bytes) is modelled by `String.length` (characters); the two
  agree on the ASCII contents used in all concrete inputs below.
* Asynchronous execution is serialised: the embedded functions take the
  awaited results of model calls and tool executions as explicit inputs.
-/

namespace AgentRuntime

/-! ### JSON data model (`serde_json::Value`) -/

/-- A JSON tree, as `serde_json::Value` restricted to integer numbers.
Objects carry their entries as an ordered association list; see
`canonical_args_entries` for how parse results order their entries. -/
inductive Json where
  | null : Json
  | bool : Bool → Json
  | num : Int → Json
  | str : String → Json
  | arr : List Json → Json
  | obj : List (String × Json) → Json
deriving Repr

/-- serde_json's string escaping for the character set used in this
development: quote and backslash are escaped, as are the common control
characters `\n`, `\t`, `\r`.  (Other control characters, which serde_json
escapes as `\b`, `\f` or `\u00XX`, do not occur in any modelled input.) -/
def escapeJsonChar (c : Char) : String :=
  if c = '"' then "\\\""
  else if c = '\\' then "\\\\"
  else if c = '\n' then "\\n"
  else if c = '\t' then "\\t"
  else if c = '\r' then "\\r"
  else String.singleton c

/-- Escape a string for inclusion in compact JSON output. -/
def escapeJsonString (s : String) : String :=
  String.join (s.toList.map escapeJsonChar)

mutual

/-- Compact serialization, as `serde_json::to_string` /
`serde_json::Value`'s `Display`: no whitespace, entries in the order the
underlying map iterates them. -/
def Json.serialize : Json → String
  | .null => "null"
  | .bool true => "true"
  | .bool false => "false"
  | .num n => toString n
  | .str s => "\"" ++ escapeJsonString s ++ "\""
  | .arr xs => "[" ++ Json.serializeList xs ++ "]"
  | .obj kvs => "\x7b" ++ Json.serializeObjList kvs ++ "\x7d"

/-- Comma-separated serialization of array elements. -/
def Json.serializeList : List Json → String
  | [] => ""
  | [x] => Json.serialize x
  | x :: xs => Json.serialize x ++ "," ++ Json.serializeList xs

/-- Comma-separated serialization of object entries, in list order. -/
def Json.serializeObjList : List (String × Json) → String
  | [] => ""
  | [(k, v)] => "\"" ++ escapeJsonString k ++ "\":" ++ Json.serialize v
  | (k, v) :: kvs =>
      "\"" ++ escapeJsonString k ++ "\":" ++ Json.serialize v ++ "," ++
        Json.serializeObjList kvs

end

/-! ### Chat data model (`src/llm/types.rs`) -/

/-- Role of a message in a conversation. -/
inductive Role where
  | system
  | user
  | assistant
  | tool
deriving Repr, DecidableEq

/-- `FunctionCall` from `src/llm/types.rs`.  In the source, `arguments` is the
model-emitted JSON *string*; the embedding represents that string by its
`serde_json` parse result: `none` when the string is not valid JSON, `some j`
when it parses to the value `j`.  (The agent only ever consumes the string
through `serde_json::from_str`, so this representation is faithful for every
verified property; the raw bytes of an unparseable string are not retained.) -/
structure FunctionCall where
  name : String
  arguments : Option Json
deriving Repr

/-- `ToolCall` from `src/llm/types.rs`. -/
structure ToolCall where
  id : String
  type : String
  function : FunctionCall
deriving Repr

/-- `ChatMessage` from `src/llm/types.rs`. -/
structure ChatMessage where
  role : Role
  content : String
  tool_calls : Option (List ToolCall) := none
  tool_call_id : Option String := none
deriving Repr

/-- `ChatMessage::system`. -/
def ChatMessage.system (content : String) : ChatMessage :=
  { role := .system, content := content }

/-- `ChatMessage::user`. -/
def ChatMessage.user (content : String) : ChatMessage :=
  { role := .user, content := content }

/-- `ChatMessage::assistant`. -/
def ChatMessage.assistant (content : String) : ChatMessage :=
  { role := .assistant, content := content }

/-- `ChatMessage::assistant_with_tool_calls`. -/
def ChatMessage.assistant_with_tool_calls (content : String)
    (tool_calls : List ToolCall) : ChatMessage :=
  { role := .assistant, content := content, tool_calls := some tool_calls }

/-- `ChatMessage::tool_result`. -/
def ChatMessage.tool_result (tool_call_id : String) (content : String) :
    ChatMessage :=
  { role := .tool, content := content, tool_call_id := some tool_call_id }

/-- Rust `str::split(sep).collect::<Vec<_>>()` over a single-character
separator, modelled on the character list (empty pieces preserved; splitting
the empty string yields `[""]`). -/
def splitCharList (sep : Char) : List Char → List (List Char)
  | [] => [[]]
  | c :: rest =>
      let r := splitCharList sep rest
      if c = sep then [] :: r
      else
        match r with
        | h :: t => (c :: h) :: t
        | [] => [[c]]

/-- Rust `str::split(sep)` on strings. -/
def rustSplit (sep : Char) (s : String) : List String :=
  (splitCharList sep s.toList).map fun cs => String.mk cs

/-- Rust `str::parse::<usize>()`, modelled for unsigned decimal digit strings
(Rust additionally accepts one leading `+`, which no verified property
exercises). -/
def parseUsize (s : String) : Option Nat :=
  let cs := s.toList
  if cs.isEmpty then none
  else if cs.all Char.isDigit then
    some (cs.foldl (fun n c => n * 10 + (c.toNat - '0'.toNat)) 0)
  else none

/-- Rust `str::trim()`: strip whitespace from both ends. -/
def rustTrim (s : String) : String :=
  String.mk
    (((s.toList.dropWhile Char.isWhitespace).reverse.dropWhile
      Char.isWhitespace).reverse)

/-! ### Tool loop detection (`src/tool_loop_detection.rs`) -/

/-- `ToolLoopDetectionConfig`. -/
structure ToolLoopDetectionConfig where
  enabled : Bool
  custom_message : Option String
deriving Repr, DecidableEq

/-- `ToolLoopDetectionConfig::get_message`.  The default template is the
source's `format!` literal (whose backslash line continuations elide the
newlines); a custom template has `\x7btool_name\x7d` and
`\x7bprevious_result\x7d` replaced, the latter by the `Display` rendering of
the previous result (compact JSON). -/
def ToolLoopDetectionConfig.get_message (c : ToolLoopDetectionConfig)
    (tool_name : String) (previous_result : Json) : String :=
  match c.custom_message with
  | some custom =>
      (custom.replace "\x7btool_name\x7d" tool_name).replace
        "\x7bprevious_result\x7d" previous_result.serialize
  | none =>
      "You already called the tool '" ++ tool_name ++
        "' with these exact parameters and received a response: " ++
        previous_result.serialize ++
        ". Please use the previous result instead of calling it again. " ++
        "If you need different information, try calling with different parameters."

/-- `ToolCallTracker::hash_args`, applied to the entries of the argument
`HashMap` *in the map's iteration order* (the `entries` list).  The source
serialises the `HashMap<String, Value>` with `serde_json::to_string` — which
emits entries in iteration order and performs no key sorting, despite the
in-code comment — and then takes the md5 hex digest of the bytes.  md5 is a
fixed function of its input bytes; it is modelled here by the identity on the
canonical bytes (a stable, collision-free stand-in), so two hashes are equal
exactly when the serialised bytes are. -/
def hash_args (entries : List (String × Json)) : String :=
  Json.serialize (Json.obj entries)

/-- `ToolCallTracker`: history of `(tool_name, args_hash, result)` tuples. -/
structure ToolCallTracker where
  history : List (String × String × Json)
deriving Repr

/-- `ToolCallTracker::new`. -/
def ToolCallTracker.new : ToolCallTracker := { history := [] }

/-- `ToolCallTracker::record_call` (arguments given in iteration order, as in
`hash_args`). -/
def ToolCallTracker.record_call (t : ToolCallTracker) (tool_name : String)
    (args : List (String × Json)) (result : Json) : ToolCallTracker :=
  { history := t.history ++ [(tool_name, hash_args args, result)] }

/-- `ToolCallTracker::check_for_loop`: first recorded entry with the same
tool name and argument hash, if any. -/
def ToolCallTracker.check_for_loop (t : ToolCallTracker) (tool_name : String)
    (args : List (String × Json)) : Option Json :=
  (t.history.find? fun e => e.1 == tool_name && e.2.1 == hash_args args).map
    (fun e => e.2.2)

/-! ### Context managers (`src/context.rs`, `src/context_strategies.rs`)

Each strategy is embedded as a structure holding the fields its constructed
value carries, with `should_prune` / `prune` / `estimate_tokens` as functions
of those fields.  `prune` returns the new history together with the
tokens-or-messages-freed count, as in the source (the `Result` wrapper is
dropped: no strategy ever returns an error). -/

/-- `estimate_tokens_simple` (`src/context_strategies.rs`): content length / 4
per message, plus 1 for the role marker, plus 20 per outgoing tool call. -/
def estimate_tokens_simple (messages : List ChatMessage) : Nat :=
  (messages.map fun msg =>
    let content_tokens := msg.content.length / 4
    let role_token := 1
    let tool_tokens := match msg.tool_calls with
      | some calls => calls.length * 20
      | none => 0
    content_tokens + role_token + tool_tokens).sum

/-- `NoOpManager` (`src/context.rs`); it carries no state. -/
structure NoOpManager where
deriving Repr

/-- `NoOpManager::should_prune`: never prunes. -/
def NoOpManager.should_prune (_m : NoOpManager) (_history : List ChatMessage)
    (_current_tokens : Nat) : Bool :=
  false

/-- `NoOpManager::prune`: returns the history unchanged. -/
def NoOpManager.prune (_m : NoOpManager) (history : List ChatMessage) :
    List ChatMessage × Nat :=
  (history, 0)

/-- `NoOpManager::estimate_tokens`: content length / 4 only (no role marker,
no tool-call overhead). -/
def NoOpManager.estimate_tokens (_m : NoOpManager)
    (messages : List ChatMessage) : Nat :=
  (messages.map fun msg => msg.content.length / 4).sum

/-- `TokenBudgetManager`: the fields of a constructed value.  (`new` derives
`max_input_tokens` and the 10% `safety_buffer` from the total budget and the
input/output split by `f64` arithmetic; the strategy's behaviour is a function
of the resulting fields, which is what the verified properties quantify
over.) -/
structure TokenBudgetManager where
  max_input_tokens : Nat
  min_messages_to_keep : Nat
  safety_buffer : Nat
deriving Repr, DecidableEq

/-- `TokenBudgetManager::pruning_threshold`: `max - buffer`, saturating. -/
def TokenBudgetManager.pruning_threshold (m : TokenBudgetManager) : Nat :=
  m.max_input_tokens - m.safety_buffer

/-- `TokenBudgetManager::should_prune`. -/
def TokenBudgetManager.should_prune (m : TokenBudgetManager)
    (_history : List ChatMessage) (current_tokens : Nat) : Bool :=
  current_tokens > m.pruning_threshold

/-- `TokenBudgetManager::estimate_tokens` (same formula as
`estimate_tokens_simple`, written out separately in the source). -/
def TokenBudgetManager.estimate_tokens (_m : TokenBudgetManager)
    (messages : List ChatMessage) : Nat :=
  (messages.map fun msg =>
    let content_tokens := msg.content.length / 4
    let role_tokens := 1
    let tool_tokens := match msg.tool_calls with
      | some calls => calls.length * 20
      | none => 0
    content_tokens + role_tokens + tool_tokens).sum

/-- The `while` loop inside `TokenBudgetManager::prune`: evict from the front
of the non-system remainder while over `max_input_tokens` and more than
`min_messages_to_keep` messages remain. -/
def TokenBudgetManager.pruneLoop (m : TokenBudgetManager) :
    List ChatMessage → Nat → List ChatMessage × Nat
  | remaining, current_tokens =>
    if current_tokens > m.max_input_tokens ∧
        remaining.length > m.min_messages_to_keep then
      match remaining with
      | [] => ([], current_tokens)
      | removed :: rest =>
          TokenBudgetManager.pruneLoop m rest
            (current_tokens - m.estimate_tokens [removed])
    else (remaining, current_tokens)
  termination_by remaining _ => remaining.length

/-- `TokenBudgetManager::prune`. -/
def TokenBudgetManager.prune (m : TokenBudgetManager)
    (history : List ChatMessage) : List ChatMessage × Nat :=
  if history.length ≤ m.min_messages_to_keep then (history, 0)
  else
    let initial_tokens := m.estimate_tokens history
    let system_messages := history.takeWhile fun msg => msg.role == Role.system
    let remaining := history.drop system_messages.length
    let result := m.pruneLoop remaining initial_tokens
    let pruned := system_messages ++ result.1
    let final_tokens := m.estimate_tokens pruned
    (pruned, initial_tokens - final_tokens)

/-- `SlidingWindowManager`. -/
structure SlidingWindowManager where
  max_messages : Nat
  min_messages : Nat
deriving Repr, DecidableEq

/-- `SlidingWindowManager::should_prune`: by message count. -/
def SlidingWindowManager.should_prune (m : SlidingWindowManager)
    (history : List ChatMessage) (_current_tokens : Nat) : Bool :=
  history.length > m.max_messages

/-- `SlidingWindowManager::estimate_tokens`: content length / 4 only (no role
marker, no tool-call overhead). -/
def SlidingWindowManager.estimate_tokens (_m : SlidingWindowManager)
    (messages : List ChatMessage) : Nat :=
  (messages.map fun msg => msg.content.length / 4).sum

/-- `SlidingWindowManager::prune`: keep the leading system messages plus the
last `max_messages - #system` other messages. -/
def SlidingWindowManager.prune (m : SlidingWindowManager)
    (history : List ChatMessage) : List ChatMessage × Nat :=
  if history.length ≤ m.max_messages then (history, 0)
  else
    let initial_count := history.length
    let system_count :=
      (history.takeWhile fun msg => msg.role == Role.system).length
    let messages_to_keep := m.max_messages - system_count
    let system_messages := history.take system_count
    let rest := history.drop system_count
    let keep_from_index := rest.length - messages_to_keep
    let kept_messages := rest.drop keep_from_index
    let pruned := system_messages ++ kept_messages
    (pruned, initial_count - pruned.length)

/-- `MessageTypeManager`. -/
structure MessageTypeManager where
  max_messages : Nat
  keep_recent_pairs : Nat
deriving Repr, DecidableEq

/-- `MessageTypeManager::classify_message`: priority tier (0 = Critical
system, 1 = High user/assistant, 2 = Low tool). -/
def MessageTypeManager.classify_message (msg : ChatMessage) : Nat :=
  match msg.role with
  | .system => 0
  | .user => 1
  | .assistant => 1
  | .tool => 2

/-- The inner `for j in (0..i).rev()` of `extract_recent_pairs`: the largest
index `j < i` whose message has the user role. -/
def findUserBelow (history : List ChatMessage) (i : Nat) : Option Nat :=
  (List.range i).reverse.find? fun j =>
    match history.get? j with
    | some m => m.role == Role.user
    | none => false

/-- The `while` loop of `MessageTypeManager::extract_recent_pairs`: walk
backwards collecting user/assistant indices; on an assistant message, also
collect the nearest user message below it and count a pair. -/
def extractRecentPairsLoop (history : List ChatMessage) (keep_pairs : Nat) :
    Nat → Nat → List Nat → List Nat
  | i, pairs_found, acc =>
    if _h : i = 0 ∨ pairs_found ≥ keep_pairs then acc
    else
      match _hi : history.get? (i - 1) with
      | none => acc
      | some msg =>
        if msg.role == Role.user || msg.role == Role.assistant then
          let acc' := acc ++ [i - 1]
          if msg.role == Role.assistant ∧ i - 1 > 0 then
            match _hj : findUserBelow history (i - 1) with
            | some j =>
                extractRecentPairsLoop history keep_pairs j (pairs_found + 1)
                  (acc' ++ [j])
            | none =>
                extractRecentPairsLoop history keep_pairs (i - 1) pairs_found
                  acc'
          else
            extractRecentPairsLoop history keep_pairs (i - 1) pairs_found acc'
        else
          extractRecentPairsLoop history keep_pairs (i - 1) pairs_found acc
  termination_by i _ _ => i
  decreasing_by
    all_goals simp_wf
    · have hmem := List.mem_of_find?_eq_some _hj
      rw [List.mem_reverse, List.mem_range] at hmem
      omega
    all_goals omega

/-- `MessageTypeManager::extract_recent_pairs`.  The source sorts the
collected indices before returning; the caller only feeds them into an index
set, so the embedding returns them unsorted (set-equal). -/
def MessageTypeManager.extract_recent_pairs (history : List ChatMessage)
    (keep_pairs : Nat) : List Nat :=
  extractRecentPairsLoop history keep_pairs history.length 0 []

/-- Stable sort of messages by `classify_message` (the source's
`sort_by_key`, which is stable, over the three priority tiers). -/
def MessageTypeManager.sortByPriority (l : List ChatMessage) :
    List ChatMessage :=
  l.filter (fun msg => MessageTypeManager.classify_message msg == 0) ++
    l.filter (fun msg => MessageTypeManager.classify_message msg == 1) ++
    l.filter (fun msg => MessageTypeManager.classify_message msg == 2)

/-- `MessageTypeManager::should_prune`: by message count. -/
def MessageTypeManager.should_prune (m : MessageTypeManager)
    (history : List ChatMessage) (_current_tokens : Nat) : Bool :=
  history.length > m.max_messages

/-- The protected indices of `MessageTypeManager::prune` — system messages
plus recent conversation pairs — visited in increasing index order (the
source collects them in a `HashSet` and sorts; the indexed traversal below
realises exactly that sorted sequence of distinct indices). -/
def MessageTypeManager.protectedMessages (m : MessageTypeManager)
    (history : List ChatMessage) : List ChatMessage :=
  let pair_indices :=
    MessageTypeManager.extract_recent_pairs history m.keep_recent_pairs
  ((history.enum.filter fun p =>
      p.2.role == Role.system || pair_indices.contains p.1).map Prod.snd)

/-- `MessageTypeManager::prune`. -/
def MessageTypeManager.prune (m : MessageTypeManager)
    (history : List ChatMessage) : List ChatMessage × Nat :=
  if history.length ≤ m.max_messages then (history, 0)
  else
    let original_len := history.length
    let new_history := m.protectedMessages history
    let new_history :=
      if new_history.length > m.max_messages then
        (MessageTypeManager.sortByPriority new_history).take m.max_messages
      else new_history
    (new_history, original_len - new_history.length)

/-- `MessageTypeManager::estimate_tokens` = `estimate_tokens_simple`. -/
def MessageTypeManager.estimate_tokens (_m : MessageTypeManager)
    (messages : List ChatMessage) : Nat :=
  estimate_tokens_simple messages

/-- `SummarizationManager`. -/
structure SummarizationManager where
  summarization_threshold : Nat
  summary_token_target : Nat
  max_input_tokens : Nat
  keep_recent_count : Nat
deriving Repr, DecidableEq

/-- `SummarizationManager::create_summary`: the placeholder synthetic system
message built from the head of the history. -/
def SummarizationManager.create_summary (messages : List ChatMessage) :
    ChatMessage :=
  let user_messages := messages.filter fun m => m.role == Role.user
  let assistant_messages := messages.filter fun m => m.role == Role.assistant
  let base := "Summary of previous conversation:\n\n" ++
    "- " ++ toString user_messages.length ++ " user inputs and " ++
    toString assistant_messages.length ++ " assistant responses\n"
  let base := match user_messages.head? with
    | some first_user =>
        base ++ "- Initial topic: " ++ first_user.content.take 100 ++ "\n"
    | none => base
  let base := match assistant_messages.getLast? with
    | some last_assistant =>
        base ++ "- Latest response: " ++ last_assistant.content.take 100 ++
          "\n"
    | none => base
  let summary_content := base ++
    "\n[This is a compressed summary. Original messages were removed to save context space.]"
  { role := Role.system, content := summary_content }

/-- `SummarizationManager::should_prune`: by estimated token count. -/
def SummarizationManager.should_prune (m : SummarizationManager)
    (_history : List ChatMessage) (current_tokens : Nat) : Bool :=
  current_tokens > m.summarization_threshold

/-- `SummarizationManager::estimate_tokens` = `estimate_tokens_simple`. -/
def SummarizationManager.estimate_tokens (_m : SummarizationManager)
    (messages : List ChatMessage) : Nat :=
  estimate_tokens_simple messages

/-- `SummarizationManager::prune`. -/
def SummarizationManager.prune (m : SummarizationManager)
    (history : List ChatMessage) : List ChatMessage × Nat :=
  let current_tokens := m.estimate_tokens history
  if current_tokens ≤ m.summarization_threshold then (history, 0)
  else
    let keep_from_end := min m.keep_recent_count history.length
    let summarize_count := history.length - keep_from_end
    if summarize_count = 0 then (history, 0)
    else
      let original_len := history.length
      let to_summarize := history.take summarize_count
      let keep_recent := history.drop summarize_count
      let system_messages :=
        to_summarize.filter fun msg => msg.role == Role.system
      let non_system_to_summarize :=
        to_summarize.filter fun msg => !(msg.role == Role.system)
      let new_history := system_messages ++
        (if non_system_to_summarize.isEmpty then []
         else [SummarizationManager.create_summary non_system_to_summarize]) ++
        keep_recent
      let final_tokens := m.estimate_tokens new_history
      let new_history :=
        if final_tokens > m.max_input_tokens then
          let emergency_keep := m.keep_recent_count / 2
          let retained := new_history.filter fun msg => msg.role == Role.system
          if emergency_keep > 0 ∧ emergency_keep < history.length then
            retained ++ history.drop (history.length - emergency_keep)
          else retained
        else new_history
      (new_history, original_len - new_history.length)

/-! ### Retry policy (`src/retry.rs`)

`RetryPolicy::execute` is embedded with the operation as a function from the
attempt index to its (awaited) outcome, and the elapsed-time cutoff
(`start.elapsed() > max_total_duration`, checked at the top of each attempt)
as a boolean oracle indexed by the attempt number — real time and the jittered
sleeps do not otherwise influence control flow. -/

/-- The subset of `RuntimeError` relevant to retrying: `Llm` errors carry the
`retryable` flag consulted by `execute`; every other variant is
non-retryable. -/
inductive RuntimeError where
  | llm (retryable : Bool) (message : String)
  | other (message : String)
deriving Repr, DecidableEq

/-- The `should_retry` computation inside `RetryPolicy::execute`. -/
def RuntimeError.shouldRetry : RuntimeError → Bool
  | .llm retryable _ => retryable
  | .other _ => false

/-- The `RuntimeError::RetryExhausted` payload: operation name, reported
attempt count, and the last underlying error. -/
structure RetryExhausted where
  operation : String
  attempts : Nat
  last_error : RuntimeError
deriving Repr, DecidableEq

/-- Outcome of `RetryPolicy::execute`: success, the `RetryExhausted` error, or
the panic the source hits (`last_error.unwrap()` on `None`) when the duration
cutoff fires before any attempt ran. -/
inductive RetryOutcome (T : Type) where
  | ok (value : T)
  | exhausted (e : RetryExhausted)
  | panicNoAttempt
deriving Repr, DecidableEq

/-- The code reached when `RetryPolicy::execute`'s loop exits without a
success: the final `Err(RetryExhausted { .. })`, whose `attempts` field
reports `max_attempts + 1` regardless of how many attempts actually ran, and
which panics (`last_error.unwrap()`) when no attempt ran at all. -/
def retryFinish {T : Type} (max_attempts : Nat) (operation_name : String)
    (last : Option RuntimeError) (count : Nat) : RetryOutcome T × Nat :=
  match last with
  | some e =>
      (.exhausted
        { operation := operation_name, attempts := max_attempts + 1,
          last_error := e }, count)
  | none => (.panicNoAttempt, count)

/-- The `for attempt in 0..=max_attempts` loop of `RetryPolicy::execute`,
returning the outcome paired with the number of times the operation was
invoked; `last` is the `last_error` variable. -/
def retryLoop {T : Type} (max_attempts : Nat) (operation_name : String)
    (op : Nat → Except RuntimeError T) (elapsed_exceeded : Nat → Bool)
    (attempt : Nat) (last : Option RuntimeError) (count : Nat) :
    RetryOutcome T × Nat :=
  if _h : attempt > max_attempts then
    retryFinish max_attempts operation_name last count
  else if elapsed_exceeded attempt then
    retryFinish max_attempts operation_name last count
  else
    match op attempt with
    | .ok result => (.ok result, count + 1)
    | .error e =>
        if attempt ≥ max_attempts || !e.shouldRetry then
          retryFinish max_attempts operation_name (some e) (count + 1)
        else
          retryLoop max_attempts operation_name op elapsed_exceeded
            (attempt + 1) (some e) (count + 1)
  termination_by max_attempts + 1 - attempt

/-- `RetryPolicy::execute` (entered at attempt 0 with no recorded error). -/
def RetryPolicy.execute {T : Type} (max_attempts : Nat)
    (operation_name : String) (op : Nat → Except RuntimeError T)
    (elapsed_exceeded : Nat → Bool) : RetryOutcome T × Nat :=
  retryLoop max_attempts operation_name op elapsed_exceeded 0 none 0

/-! ### Event stream (`src/event.rs`)

The stream state is the event history plus the `next_offset` counter; the
spawned append task is serialised into a state-passing function.  `Event.id`
(a fresh UUID) and `timestamp` are environment-supplied and carried by no
verified property, so they are omitted from the embedded record. -/

/-- `EventScope`. -/
inductive EventScope where
  | workflow
  | workflowStep
  | agent
  | llmRequest
  | tool
  | system
deriving Repr, DecidableEq

/-- The `{:?}` rendering of an `EventScope`, used in validation messages. -/
def EventScope.debugStr : EventScope → String
  | .workflow => "Workflow"
  | .workflowStep => "WorkflowStep"
  | .agent => "Agent"
  | .llmRequest => "LlmRequest"
  | .tool => "Tool"
  | .system => "System"

/-- `EventType` (lifecycle stage). -/
inductive EventType where
  | started
  | progress
  | completed
  | failed
  | canceled
deriving Repr, DecidableEq

/-- `ComponentStatus`. -/
inductive ComponentStatus where
  | pending
  | running
  | completed
  | failed
  | canceled
deriving Repr, DecidableEq

/-- `Event` (without the environment-supplied `id` and `timestamp`). -/
structure Event where
  offset : Nat
  scope : EventScope
  event_type : EventType
  component_id : String
  status : ComponentStatus
  workflow_id : String
  parent_workflow_id : Option String
  message : Option String
  data : Json
deriving Repr

/-- `Event::validate_component_id`. -/
def Event.validate_component_id (scope : EventScope) (component_id : String) :
    Except String Unit :=
  if component_id.isEmpty then
    .error (scope.debugStr ++ " component_id cannot be empty")
  else
    match scope with
    | .workflow => .ok ()
    | .workflowStep =>
        let parts := rustSplit ':' component_id
        if parts.length ≠ 3 ∨ parts.get? 1 ≠ some "step" then
          .error ("WorkflowStep component_id must be 'workflow_name:step:N', got '"
            ++ component_id ++ "'")
        else if (parseUsize ((parts.get? 2).getD "")).isNone then
          .error ("WorkflowStep index must be a number, got '" ++
            (parts.get? 2).getD "" ++ "'")
        else .ok ()
    | .agent => .ok ()
    | .llmRequest =>
        let parts := rustSplit ':' component_id
        if parts.length ≠ 3 ∨ parts.get? 1 ≠ some "llm" then
          .error ("LlmRequest component_id must be 'agent_name:llm:N', got '"
            ++ component_id ++ "'")
        else if (parseUsize ((parts.get? 2).getD "")).isNone then
          .error ("LlmRequest iteration must be a number, got '" ++
            (parts.get? 2).getD "" ++ "'")
        else .ok ()
    | .tool => .ok ()
    | .system =>
        if !("system:".isPrefixOf component_id) then
          .error ("System component_id must start with 'system:', got '" ++
            component_id ++ "'")
        else .ok ()

/-- The arguments of one `append_with_parent` call. -/
structure AppendRequest where
  scope : EventScope
  event_type : EventType
  component_id : String
  status : ComponentStatus
  workflow_id : String
  parent_workflow_id : Option String
  message : Option String
  data : Json
deriving Repr

/-- `Event::with_parent`: validate, then build the event at the given
offset. -/
def Event.with_parent (offset : Nat) (r : AppendRequest) :
    Except String Event :=
  match Event.validate_component_id r.scope r.component_id with
  | .error e => .error e
  | .ok _ =>
      .ok { offset := offset, scope := r.scope, event_type := r.event_type,
            component_id := r.component_id, status := r.status,
            workflow_id := r.workflow_id,
            parent_workflow_id := r.parent_workflow_id,
            message := r.message, data := r.data }

/-- `EventStream` state: in-memory history and the next-offset counter. -/
structure EventStream where
  history : List Event
  next_offset : Nat
deriving Repr

/-- `EventStream::new` / `with_capacity`: empty history, counter at 0. -/
def EventStream.new : EventStream :=
  { history := [], next_offset := 0 }

/-- `EventStream::append_with_parent` (the body of the spawned task, run to
completion): take and increment the offset counter FIRST, then validate and
build the event; on validation failure return the error with the history
untouched — but the counter already bumped. -/
def EventStream.append_with_parent (s : EventStream) (r : AppendRequest) :
    EventStream × Except String Event :=
  let offset := s.next_offset
  let s := { s with next_offset := s.next_offset + 1 }
  match Event.with_parent offset r with
  | .error e => (s, .error e)
  | .ok event => ({ s with history := s.history ++ [event] }, .ok event)

/-- Run a sequence of appends against a stream state, in order. -/
def EventStream.appendAll (s : EventStream) (reqs : List AppendRequest) :
    EventStream :=
  reqs.foldl (fun s r => (s.append_with_parent r).1) s

/-! ### Workflow runtime (`src/runtime.rs`, `src/workflow.rs`)

A step is embedded as its name, rendered step type, and its
`execute_with_context` behaviour — a function from the input data to either
the output `(data, execution_time_ms)` or an error message.  The events the
runtime emits are recorded as an ordered list of tags carrying the payloads
the verified properties inspect. -/

/-- `WorkflowState`. -/
inductive WorkflowState where
  | pending
  | running
  | completed
  | failed
deriving Repr, DecidableEq

/-- `WorkflowStepRecord` (`src/workflow.rs`). -/
structure WorkflowStepRecord where
  step_index : Nat
  step_name : String
  step_type : String
  input : Json
  output : Option Json
  execution_time_ms : Option Nat
deriving Repr

/-- `WorkflowRun` (`src/workflow.rs`). -/
structure WorkflowRun where
  workflow_id : String
  state : WorkflowState
  steps : List WorkflowStepRecord
  final_output : Option Json
  parent_workflow_id : Option String
deriving Repr

/-- A workflow step as the runtime consumes it. -/
structure RtStep where
  name : String
  step_type : String
  run : Json → Except String (Json × Nat)

/-- The events `Runtime::execute_with_parent` emits, in order. -/
inductive RtEvent where
  | workflowStarted
  | stepStarted (index : Nat)
  | stepCompleted (index : Nat)
  | stepFailed (index : Nat) (error : String)
  | workflowFailed (error : String)
  | workflowCompleted
deriving Repr, DecidableEq

/-- The step loop of `Runtime::execute_with_parent`, from step `base` with
the run-so-far accumulated in `run` and the events so far in `events`.
On the first failing step it emits `workflow_step failed` and
`workflow failed`, marks the run `Failed` and returns — pushing no
`WorkflowStepRecord` for the failing step. -/
def runtimeLoop (run : WorkflowRun) (events : List RtEvent) (base : Nat)
    (current_data : Json) : List RtStep → WorkflowRun × List RtEvent
  | [] =>
      ({ run with final_output := some current_data,
                  state := WorkflowState.completed },
        events ++ [RtEvent.workflowCompleted])
  | step :: rest =>
      let events := events ++ [RtEvent.stepStarted base]
      match step.run current_data with
      | .ok output =>
          let events := events ++ [RtEvent.stepCompleted base]
          let run := { run with
            steps := run.steps ++
              [{ step_index := base, step_name := step.name,
                 step_type := step.step_type, input := current_data,
                 output := some output.1,
                 execution_time_ms := some output.2 }] }
          runtimeLoop run events (base + 1) output.1 rest
      | .error e =>
          ({ run with state := WorkflowState.failed },
            events ++ [RtEvent.stepFailed base e, RtEvent.workflowFailed e])

/-- `Runtime::execute_with_parent`: emit `workflow.started`, run the steps in
sequence threading each step's output into the next step's input. -/
def Runtime.execute_with_parent (workflow_id : String) (steps : List RtStep)
    (initial_input : Json) (parent_workflow_id : Option String) :
    WorkflowRun × List RtEvent :=
  let run : WorkflowRun :=
    { workflow_id := workflow_id, state := WorkflowState.running,
      steps := [], final_output := none,
      parent_workflow_id := parent_workflow_id }
  runtimeLoop run [RtEvent.workflowStarted] 0 initial_input steps

/-! ### Agent execution loop (`src/agent.rs`)

`Agent::execute_with_events` is embedded as a deterministic function of

* the agent configuration,
* the model client, given as a map from the iteration number to the awaited
  outcome of `chat_stream` for that iteration, and
* the tool registry, given as `call_tool`'s behaviour.

The events the run emits are recorded as ordered tags carrying the payload
fields the verified properties inspect (the spawned per-chunk stream events,
and the environment-supplied component ids and timings, are not modelled).
Alongside the event list, the run result carries ghost bookkeeping — the
processed, dispatched, registry-reaching and suppressed tool calls, each
keyed by `(tool name, argument hash)` — recording which path of the source's
per-tool-call branch each call took. -/

/-- `ToolRegistry` as the agent consumes it: `call_tool` yields the
`ToolResult`'s `output` value, or the rendered `ToolError`. -/
structure ToolRegistry where
  call_tool : String → List (String × Json) → Except String Json

/-- `AgentConfig` (the fields the execution loop reads). -/
structure AgentConfig where
  name : String
  system_prompt : String
  tools : Option ToolRegistry
  max_tool_iterations : Nat
  tool_loop_detection : Option ToolLoopDetectionConfig

/-- `AgentInput` (its `data` payload; the metadata only feeds component ids,
which are not modelled). -/
structure AgentInput where
  data : Json

/-- `ChatResponse` as the agent consumes it: content, optional
`usage.total_tokens`, optional tool calls. -/
structure ChatResponse where
  content : String
  usage : Option Nat
  tool_calls : Option (List ToolCall)

/-- The events an agent run emits, in order. -/
inductive AgentEvent where
  | processing
  | llmRequestStarted (iteration : Nat)
  | llmRequestCompleted
  | llmRequestFailed (error : String)
  | agentFailed (error : String)
  | agentCompleted
  | toolLoopDetected (tool : String) (message : String)
  | toolCallStarted (tool : String)
  | toolCallCompleted (tool : String)
  | toolCallFailed (tool : String) (error : String)
deriving Repr, DecidableEq

/-- A tool call's identity for loop detection: `(tool name, args hash)`. -/
abbrev CallKey := String × String

/-- Ghost record of one suppressed (loop-detected) tool call. -/
structure Suppression where
  key : CallKey
  call_id : String
  content : String

/-- The agent's canonicalisation of a tool call's `function.arguments` for
loop detection: `serde_json::from_str(..).unwrap_or(json!(\x7b\x7d))` followed by
`.as_object()` and a fallback to the empty map — an unparseable string or a
non-object value both canonicalise to the empty entry list. -/
def canonical_args_entries (arguments : Option Json) : List (String × Json) :=
  match arguments with
  | some (.obj kvs) => kvs
  | _ => []

/-- The `CallKey` of a tool call.  The entries list passed to `hash_args`
stands in for the `HashMap` iteration order, and the embedding fixes it to
the parsed document order — the same order at the check site, the record
site, and across duplicate calls.  In the source each site serialises a
freshly built `std` `HashMap` whose per-instance iteration order is random,
so two equal multi-key argument maps need not produce the same digest; key
equality across call instances is faithful only for empty and single-key
maps, whose serialisation admits a single order, and cross-call properties
are stated only for such keys. -/
def toolCallKey (tc : ToolCall) : CallKey :=
  (tc.function.name, hash_args (canonical_args_entries tc.function.arguments))

/-- The fixed text standing in for `format!("Failed to parse tool arguments:
\x7b\x7d", e)`: serde_json's error detail is a function of the raw argument
string, which the embedding does not retain; no verified property inspects
this text beyond its identity. -/
def toolArgsParseError : String :=
  "Failed to parse tool arguments: <serde_json error>"

/-- `Agent::execute_tool_call`: returns the string pushed as the tool
message, the events emitted, and whether `ToolRegistry::call_tool` was
invoked (it is invoked whenever a registry is configured and the arguments
parse to a JSON object — also for unknown
tool names, which surface as registry errors). -/
def Agent.execute_tool_call (tools : Option ToolRegistry) (tc : ToolCall) :
    String × List AgentEvent × Bool :=
  let tool_name := tc.function.name
  let started := [AgentEvent.toolCallStarted tool_name]
  match tools with
  | none =>
      let error_msg := "No tool registry configured"
      ("Error: " ++ error_msg,
        started ++ [AgentEvent.toolCallFailed tool_name error_msg], false)
  | some registry =>
      match tc.function.arguments with
      | some (.obj params) =>
          match registry.call_tool tool_name params with
          | .ok output =>
              (Json.serialize output,
                started ++ [AgentEvent.toolCallCompleted tool_name], true)
          | .error e =>
              let error_msg := "Tool execution failed: " ++ e
              ("Error: " ++ error_msg,
                started ++ [AgentEvent.toolCallFailed tool_name error_msg],
                true)
      | _ =>
          ("Error: " ++ toolArgsParseError,
            started ++ [AgentEvent.toolCallFailed tool_name toolArgsParseError],
            false)

/-- The mutable state threaded through the agent loop (the `request.messages`
list, the loop-detection tracker, the counters) together with the emitted
events and the ghost tool-call bookkeeping. -/
structure AgentLoopState where
  messages : List ChatMessage
  total_tool_calls : Nat
  tracker : Option ToolCallTracker
  events : List AgentEvent
  modelCalls : Nat
  emitted : List CallKey
  dispatched : List (CallKey × String)
  registryCalls : List CallKey
  suppressed : List Suppression

/-- The execute branch of the per-tool-call body: run the tool (or fail
locally), record the call and its result in the tracker when one exists, and
push the tool message. -/
def processToolCallExec (cfg : AgentConfig) (s : AgentLoopState)
    (tc : ToolCall) : AgentLoopState :=
  let key := toolCallKey tc
  let r := Agent.execute_tool_call cfg.tools tc
  let tool_result := r.1
  let tracker := match s.tracker with
    | some tr =>
        some (tr.record_call tc.function.name
          (canonical_args_entries tc.function.arguments)
          (Json.str tool_result))
    | none => none
  { s with
    tracker := tracker,
    events := s.events ++ r.2.1,
    messages := s.messages ++ [ChatMessage.tool_result tc.id tool_result],
    emitted := s.emitted ++ [key],
    dispatched := s.dispatched ++ [(key, tool_result)],
    registryCalls := s.registryCalls ++ (if r.2.2 then [key] else []) }

/-- The body of `for tool_call in tool_calls`: consult the loop detector when
one is active; on a hit, inject the suppression message and skip execution —
recording nothing in the tracker — otherwise execute and record. -/
def processToolCall (cfg : AgentConfig) (s : AgentLoopState)
    (tc : ToolCall) : AgentLoopState :=
  let key := toolCallKey tc
  match s.tracker, cfg.tool_loop_detection with
  | some tracker, some loop_config =>
      if loop_config.enabled then
        match tracker.check_for_loop tc.function.name
            (canonical_args_entries tc.function.arguments) with
        | some previous_result =>
            let loop_message :=
              loop_config.get_message tc.function.name previous_result
            { s with
              events := s.events ++
                [AgentEvent.toolLoopDetected tc.function.name loop_message],
              messages := s.messages ++
                [ChatMessage.tool_result tc.id loop_message],
              emitted := s.emitted ++ [key],
              suppressed := s.suppressed ++
                [{ key := key, call_id := tc.id, content := loop_message }] }
        | none => processToolCallExec cfg s tc
      else processToolCallExec cfg s tc
  | _, _ => processToolCallExec cfg s tc

/-- The final-response branch: trim the content, compute the token estimate
(`usage.total_tokens`, else `(chars / 4).ceil()`), build the output object
and emit `agent completed`. -/
def agentFinalize (response : ChatResponse) (s : AgentLoopState) :
    Except String Json × AgentLoopState :=
  let response_text := rustTrim response.content
  let token_count := match response.usage with
    | some u => u
    | none => (response_text.length + 3) / 4
  let output_data := Json.obj
    [("response", Json.str response_text),
     ("content_type", Json.str "text/plain"),
     ("token_count", Json.num token_count)]
  (.ok output_data, { s with events := s.events ++ [AgentEvent.agentCompleted] })

/-- The tool-calling `loop` of `Agent::execute_with_events`.  `iteration` is
the loop counter *before* the increment at the top of the body. -/
def agentLoop (cfg : AgentConfig) (client : Nat → Except String ChatResponse)
    (iteration : Nat) (s : AgentLoopState) :
    Except String Json × AgentLoopState :=
  let iter := iteration + 1
  if _h : iter > cfg.max_tool_iterations then
    (.error ("Maximum tool iterations (" ++
      toString cfg.max_tool_iterations ++ ") exceeded"), s)
  else
    let s := { s with
      events := s.events ++ [AgentEvent.llmRequestStarted iter],
      modelCalls := s.modelCalls + 1 }
    match client iter with
    | .ok response =>
        let s := { s with events := s.events ++ [AgentEvent.llmRequestCompleted] }
        match response.tool_calls with
        | some tool_calls =>
            if tool_calls.isEmpty then agentFinalize response s
            else
              let s := { s with
                total_tool_calls := s.total_tool_calls + tool_calls.length,
                messages := s.messages ++
                  [ChatMessage.assistant_with_tool_calls response.content
                    tool_calls] }
              let s := tool_calls.foldl (processToolCall cfg) s
              agentLoop cfg client iter s
        | none => agentFinalize response s
    | .error e =>
        let s := { s with events := s.events ++
          [AgentEvent.llmRequestFailed e, AgentEvent.agentFailed e] }
        (.error ("LLM call failed: " ++ e), s)
  termination_by cfg.max_tool_iterations + 1 - iteration

/-- The pretty rendering `serde_json::to_string_pretty` used to synthesise a
user message from non-string input data.  No verified property inspects this
text, so the compact rendering stands in for the pretty one. -/
def Json.serializeInput : Json → String
  | .str s => s
  | d => Json.serialize d

/-- `Agent::execute_with_events`: emit the processing event, then — with a
client — synthesise the prompt and enter the loop; without one, produce the
mock output. -/
def Agent.execute_with_events (cfg : AgentConfig) (input : AgentInput)
    (client : Option (Nat → Except String ChatResponse)) :
    Except String Json × AgentLoopState :=
  let s0 : AgentLoopState :=
    { messages := [], total_tool_calls := 0,
      tracker := if cfg.tool_loop_detection.isSome then some ToolCallTracker.new
                 else none,
      events := [AgentEvent.processing], modelCalls := 0,
      emitted := [], dispatched := [], registryCalls := [], suppressed := [] }
  match client with
  | some client =>
      let user_message := Json.serializeInput input.data
      let messages := [ChatMessage.system cfg.system_prompt,
                       ChatMessage.user user_message]
      agentLoop cfg client 0 { s0 with messages := messages }
  | none =>
      let output_data := Json.obj
        [("agent", Json.str cfg.name),
         ("processed", input.data),
         ("system_prompt", Json.str cfg.system_prompt),
         ("note", Json.str "Mock execution - no LLM client configured")]
      (.ok output_data,
        { s0 with events := s0.events ++ [AgentEvent.agentCompleted] })

/-! ### Auxiliary definitions used by the verified properties -/

/-- Modelled from the spec: the §4.2 token-estimation formula — 1 token per 4
content characters, plus 1 per role marker, plus 20 per outgoing tool call.
Stated separately from the source estimators so that each estimator can be
compared against it. -/
def spec_token_estimate (messages : List ChatMessage) : Nat :=
  (messages.map fun msg =>
    msg.content.length / 4 + 1 +
      (match msg.tool_calls with
       | some calls => calls.length * 20
       | none => 0)).sum

/-- The leading system messages of a history. -/
def leadingSystems (history : List ChatMessage) : List ChatMessage :=
  history.takeWhile fun msg => msg.role == Role.system

/-- Whether an append request passes component-id validation. -/
def AppendRequest.isValid (r : AppendRequest) : Bool :=
  match Event.validate_component_id r.scope r.component_id with
  | .ok _ => true
  | .error _ => false

/-- Whether an agent event is `agent.tool_loop_detected`. -/
def AgentEvent.isLoopDetected : AgentEvent → Bool
  | .toolLoopDetected _ _ => true
  | _ => false

/-- Look a call key up in a tracker: the first recorded result for that
`(tool name, args hash)`. -/
def trackerFind (t : ToolCallTracker) (k : CallKey) : Option Json :=
  (t.history.find? fun e => e.1 == k.1 && e.2.1 == k.2).map fun e => e.2.2

/-- The result string of the first dispatched (executed, not suppressed) tool
call with the given key in a run's ghost bookkeeping. -/
def firstDispatch (dispatched : List (CallKey × String)) (k : CallKey) :
    Option String :=
  (dispatched.find? fun d => d.1 == k).map Prod.snd

/-- The loop-detection invariant of an agent-loop state, maintained whenever
loop detection is enabled (`lc` is the active detection config, `tools` the
configured registry):

* the tracker mirrors the dispatched calls — a key is recorded with result
  `Json.str r` exactly when `r` is the result string of the first dispatched
  call with that key;
* per key, at most one call is dispatched, and one is dispatched as soon as
  one is emitted;
* per key, the suppressed calls are exactly the emitted calls beyond the
  dispatched one;
* every suppression carries the configured message built from the first
  dispatched call's result, and its tool message is in the request log;
* one `agent.tool_loop_detected` event was emitted per suppression;
* every dispatched call whose key has non-empty canonical arguments reached
  `ToolRegistry::call_tool` (when a registry is configured). -/
def LoopInv (lc : ToolLoopDetectionConfig) (tools : Option ToolRegistry)
    (s : AgentLoopState) : Prop :=
  (∃ tr, s.tracker = some tr ∧
    ∀ k : CallKey, trackerFind tr k =
      (firstDispatch s.dispatched k).map Json.str) ∧
  (∀ k : CallKey,
    (s.dispatched.map Prod.fst).count k = min 1 (s.emitted.count k)) ∧
  (∀ k : CallKey, (s.suppressed.map Suppression.key).count k =
    s.emitted.count k - (s.dispatched.map Prod.fst).count k) ∧
  (∀ sup ∈ s.suppressed, ∃ r, firstDispatch s.dispatched sup.key = some r ∧
    sup.content = lc.get_message sup.key.1 (Json.str r) ∧
    ChatMessage.tool_result sup.call_id sup.content ∈ s.messages) ∧
  (s.events.countP AgentEvent.isLoopDetected = s.suppressed.length) ∧
  (∀ k : CallKey, k.2 ≠ hash_args [] → tools.isSome →
    s.registryCalls.count k = (s.dispatched.map Prod.fst).count k)

/-- A constant tool registry for the concrete loop-detection runs: every call
returns `Ok(json!("R"))`. -/
def loopRegistry : ToolRegistry :=
  { call_tool := fun _ _ => .ok (Json.str "R") }

/-- A concrete agent configuration with loop detection enabled (default
suppression message) and the constant registry. -/
def loopCfg : AgentConfig :=
  { name := "agent", system_prompt := "sys", tools := some loopRegistry,
    max_tool_iterations := 3,
    tool_loop_detection := some { enabled := true, custom_message := none } }

/-- A `search` tool call with fixed object arguments and the given id. -/
def loopCall (id : String) : ToolCall :=
  { id := id, type := "function",
    function := { name := "search",
                  arguments := some (Json.obj [("q", Json.str "x")]) } }

/-- A scripted model: the first round emits two identical `search` calls,
every later round a final plain-text answer. -/
def loopClient : Nat → Except String ChatResponse := fun iter =>
  if iter == 1 then
    .ok { content := "", usage := none,
          tool_calls := some [loopCall "a", loopCall "b"] }
  else
    .ok { content := "done", usage := some 1, tool_calls := none }

end AgentRuntime

namespace AgentRuntime

/-! ### General list lemmas -/

theorem sum_map_le_of_sublist {α : Type} (f : α → Nat) {l₁ l₂ : List α}
    (h : l₁.Sublist l₂) : (l₁.map f).sum ≤ (l₂.map f).sum := by
  induction h with
  | slnil => simp
  | cons a _ ih => simp only [List.map_cons, List.sum_cons]; omega
  | cons₂ a _ ih => simp only [List.map_cons, List.sum_cons]; omega

theorem takeWhile_sublist_self {α : Type} (p : α → Bool) (l : List α) :
    (l.takeWhile p).Sublist l := by
  induction l with
  | nil => simp
  | cons a t ih =>
      by_cases h : p a
      · simpa [List.takeWhile_cons, h] using ih.cons₂ a
      · simp [List.takeWhile_cons, h]

theorem takeWhile_sublist_filter {α : Type} (p : α → Bool) (l : List α) :
    (l.takeWhile p).Sublist (l.filter p) := by
  induction l with
  | nil => simp
  | cons a t ih =>
      by_cases h : p a
      · simpa [List.takeWhile_cons, List.filter_cons, h] using ih.cons₂ a
      · simp [List.takeWhile_cons, h]

theorem take_length_takeWhile {α : Type} (p : α → Bool) (l : List α) :
    l.take (l.takeWhile p).length = l.takeWhile p := by
  induction l with
  | nil => simp
  | cons a t ih =>
      by_cases h : p a
      · simp [List.takeWhile_cons, h, ih]
      · simp [List.takeWhile_cons, h]

theorem drop_length_takeWhile {α : Type} (p : α → Bool) (l : List α) :
    l.drop (l.takeWhile p).length = l.dropWhile p := by
  induction l with
  | nil => simp
  | cons a t ih =>
      by_cases h : p a
      · simp [List.takeWhile_cons, List.dropWhile_cons, h, ih]
      · simp [List.takeWhile_cons, List.dropWhile_cons, h]

theorem enumFrom_filter_map_snd {α : Type} (q : α → Bool) :
    ∀ (n : Nat) (l : List α),
      ((List.enumFrom n l).filter (fun p => q p.2)).map Prod.snd = l.filter q
  | _, [] => by simp
  | n, a :: t => by
      by_cases h : q a
      · simp [List.filter_cons, h, enumFrom_filter_map_snd q (n + 1) t]
      · simp [List.filter_cons, h, enumFrom_filter_map_snd q (n + 1) t]

/-! ### C9 — argument canonicalisation (`ToolCallTracker::hash_args`) -/

/-- C9: the claim states that `hash_args` is a function of the key-value
mapping only — the same digest regardless of entry order.  The code serialises
the argument `HashMap` in its (arbitrary, per-instance) iteration order and
never sorts keys, contradicting both the spec's key-sorted canonicalisation
and the function's own in-code comment: the two iteration orders of the
two-entry map `\x7b"a":1,"b":2\x7d` — the same key-value pairs — produce
different canonical bytes, hence different digests, and a tracker that
recorded the call under one order fails to report the loop when
`check_for_loop` sees the other order. -/
theorem c9_hash_args_depends_on_order :
    ([("a", Json.num 1), ("b", Json.num 2)] : List (String × Json)).Perm
        [("b", Json.num 2), ("a", Json.num 1)] ∧
    hash_args [("a", Json.num 1), ("b", Json.num 2)] ≠
      hash_args [("b", Json.num 2), ("a", Json.num 1)] ∧
    (ToolCallTracker.new.record_call "search"
        [("a", Json.num 1), ("b", Json.num 2)]
        (Json.str "r")).check_for_loop "search"
        [("b", Json.num 2), ("a", Json.num 1)] = none := by
  refine ⟨List.Perm.swap _ _ _, by decide, ?_⟩
  rfl

/-! ### C8 — token estimation across strategies -/

/-- C8 (amended): the §4.2 formula — content/4 + 1 per role + 20 per tool
call — is implemented by the TokenBudget, MessageType and Summarization
estimators; the NoOp and SlidingWindow estimators omit the role marker and
the tool-call overhead, returning only the summed content/4. -/
theorem c8_token_estimators (m_tb : TokenBudgetManager)
    (m_mt : MessageTypeManager) (m_sum : SummarizationManager)
    (m_noop : NoOpManager) (m_sw : SlidingWindowManager)
    (messages : List ChatMessage) :
    m_tb.estimate_tokens messages = spec_token_estimate messages ∧
    m_mt.estimate_tokens messages = spec_token_estimate messages ∧
    m_sum.estimate_tokens messages = spec_token_estimate messages ∧
    m_noop.estimate_tokens messages =
      (messages.map fun msg => msg.content.length / 4).sum ∧
    m_sw.estimate_tokens messages =
      (messages.map fun msg => msg.content.length / 4).sum :=
  ⟨rfl, rfl, rfl, rfl, rfl⟩

/-- C8 counterexample: on the single user message `"test"`, the NoOp and
SlidingWindow estimators return 1, while the claimed formula gives 2 — so not
every strategy implements the formula. -/
theorem c8_counterexample :
    NoOpManager.estimate_tokens ⟨⟩ [ChatMessage.user "test"] = 1 ∧
    SlidingWindowManager.estimate_tokens ⟨5, 3⟩ [ChatMessage.user "test"] = 1 ∧
    spec_token_estimate [ChatMessage.user "test"] = 2 ∧ (1 : Nat) ≠ 2 := by
  refine ⟨by decide, by decide, by decide, by decide⟩

/-! ### C5 — `RetryPolicy::execute` -/

theorem retryFinish_snd {T : Type} (max_attempts : Nat) (name : String)
    (last : Option RuntimeError) (count : Nat) :
    (@retryFinish T max_attempts name last count).2 = count := by
  cases last <;> rfl

theorem retryLoop_count_le {T : Type} (max_attempts : Nat) (name : String)
    (op : Nat → Except RuntimeError T) (elapsed : Nat → Bool)
    (attempt : Nat) (last : Option RuntimeError) (count : Nat) :
    (retryLoop max_attempts name op elapsed attempt last count).2 ≤
      count + (max_attempts + 1 - attempt) := by
  induction attempt, last, count using retryLoop.induct max_attempts name
      op elapsed with
  | case1 attempt last count h =>
      rw [retryLoop]
      simp only [h, dite_true]
      rw [retryFinish_snd]
      omega
  | case2 attempt last count h he =>
      rw [retryLoop]
      simp only [h, dite_false, he, if_true]
      rw [retryFinish_snd]
      omega
  | case3 attempt last count h he result hop =>
      rw [retryLoop]
      simp only [h, dite_false, he, Bool.false_eq_true, if_false, hop]
      omega
  | case4 attempt last count h he e hop hbreak =>
      rw [retryLoop]
      simp only [h, dite_false, he, Bool.false_eq_true, if_false, hop, hbreak,
        if_true]
      rw [retryFinish_snd]
      omega
  | case5 attempt last count h he e hop hbreak ih =>
      rw [retryLoop]
      simp only [h, dite_false, he, Bool.false_eq_true, if_false, hop, hbreak]
      simp only [Bool.or_eq_true, decide_eq_true_eq, not_or, Bool.not_eq_true,
        Bool.not_eq_false] at hbreak
      omega

theorem retryLoop_perpetual {T : Type} (max_attempts : Nat) (name : String)
    (op : Nat → Except RuntimeError T) (elapsed : Nat → Bool)
    (errF : Nat → RuntimeError) (hop : ∀ i, op i = .error (errF i))
    (hr : ∀ i, (errF i).shouldRetry = true) (he : ∀ i, elapsed i = false)
    (attempt : Nat) (last : Option RuntimeError) (count : Nat)
    (hle : attempt ≤ max_attempts) :
    retryLoop max_attempts name op elapsed attempt last count =
      (.exhausted
        { operation := name, attempts := max_attempts + 1,
          last_error := errF max_attempts },
        count + (max_attempts + 1 - attempt)) := by
  induction attempt, last, count using retryLoop.induct max_attempts name
      op elapsed with
  | case1 attempt last count h => omega
  | case2 attempt last count h hel => rw [he] at hel; exact absurd hel (by simp)
  | case3 attempt last count h hel result hok =>
      rw [hop] at hok; exact absurd hok (by simp)
  | case4 attempt last count h hel e hok hbreak =>
      rw [hop] at hok
      injection hok with hok
      subst hok
      rw [hr] at hbreak
      simp only [Bool.not_true, Bool.or_false, decide_eq_true_eq] at hbreak
      have hmax : attempt = max_attempts := Nat.le_antisymm (by omega) hbreak
      subst hmax
      have hone : attempt + 1 - attempt = 1 := by omega
      rw [hone, retryLoop]
      simp [hel, hop, hr, retryFinish]
  | case5 attempt last count h hel e hok hbreak ih =>
      rw [hop] at hok
      injection hok with hok
      subst hok
      simp only [hr, Bool.not_true, Bool.or_false, decide_eq_true_eq,
        Nat.not_le] at hbreak
      rw [retryLoop]
      simp only [h, dite_false, hel, Bool.false_eq_true, if_false, hop, hr,
        Bool.not_true, Bool.or_false]
      rw [if_neg (by simp [Nat.not_le.mpr hbreak])]
      rw [ih (by omega)]
      have heq : count + 1 + (max_attempts + 1 - (attempt + 1)) =
          count + (max_attempts + 1 - attempt) := by omega
      rw [heq]

/-- C5 (amended): `RetryPolicy::execute` invokes the operation at most
`max_attempts + 1` times.  Under a non-retryable first error the operation
runs exactly once, but the error does not surface directly: `execute` returns
a retry-exhausted error wrapping it as `last_error`, with the operation name
and with the `attempts` field always reporting `max_attempts + 1` — not the
count actually performed.  Under perpetually retryable errors (with the
total-duration cutoff never firing) the operation runs exactly
`max_attempts + 1` times and the retry-exhausted error carries the operation
name, `max_attempts + 1` (which there equals the count performed), and the
last underlying error. -/
theorem c5_retry_execute {T : Type} (max_attempts : Nat) (name : String)
    (op : Nat → Except RuntimeError T) (elapsed : Nat → Bool) :
    ((RetryPolicy.execute max_attempts name op elapsed).2 ≤ max_attempts + 1) ∧
    (∀ e, op 0 = .error e → e.shouldRetry = false → elapsed 0 = false →
      RetryPolicy.execute max_attempts name op elapsed =
        (.exhausted
          { operation := name, attempts := max_attempts + 1, last_error := e },
          1)) ∧
    (∀ errF : Nat → RuntimeError, (∀ i, op i = .error (errF i)) →
      (∀ i, (errF i).shouldRetry = true) → (∀ i, elapsed i = false) →
      RetryPolicy.execute max_attempts name op elapsed =
        (.exhausted
          { operation := name, attempts := max_attempts + 1,
            last_error := errF max_attempts },
          max_attempts + 1)) := by
  refine ⟨?_, ?_, ?_⟩
  · have h := retryLoop_count_le max_attempts name op elapsed 0 none 0
    simpa [RetryPolicy.execute] using h
  · intro e hop hnr hel
    rw [RetryPolicy.execute, retryLoop]
    simp [hel, hop, hnr, retryFinish]
  · intro errF hop hr he
    have h := retryLoop_perpetual max_attempts name op elapsed errF hop hr he 0
      none 0 (Nat.zero_le _)
    simpa [RetryPolicy.execute] using h

/-- C5 witness: the amended statement applied at `max_attempts = 2` with a
perpetually retryable network-style error. -/
theorem c5_retry_execute_witness :
    @RetryPolicy.execute Nat 2 "fetch"
        (fun i => .error (.llm true ("err" ++ toString i))) (fun _ => false) =
      (.exhausted
        { operation := "fetch", attempts := 3,
          last_error := .llm true "err2" },
        3) :=
  (c5_retry_execute 2 "fetch" _ _).2.2
    (fun i => RuntimeError.llm true ("err" ++ toString i)) (fun _ => rfl)
    (fun _ => rfl) (fun _ => rfl)

/-- C5 counterexample: with `max_attempts = 3` and a non-retryable error, the
operation runs exactly once, yet the result is a retry-exhausted wrapper —
the error does not surface directly — whose `attempts` field reports 4, not
the 1 attempt actually performed. -/
theorem c5_counterexample :
    @RetryPolicy.execute Nat 3 "op"
        (fun _ => .error (.llm false "boom")) (fun _ => false) =
      (.exhausted
        { operation := "op", attempts := 4, last_error := .llm false "boom" },
        1) ∧
    (4 : Nat) ≠ 1 := by
  refine ⟨?_, by decide⟩
  rw [RetryPolicy.execute, retryLoop]
  simp [retryFinish, RuntimeError.shouldRetry]

end AgentRuntime

namespace AgentRuntime

/-! ### C3 — event-stream offsets (`EventStream::append_with_parent`) -/

theorem append_with_parent_invalid (t : EventStream) (r : AppendRequest)
    (h : r.isValid = false) :
    (t.append_with_parent r).1.history = t.history ∧
    (t.append_with_parent r).1.next_offset = t.next_offset + 1 := by
  unfold EventStream.append_with_parent Event.with_parent
  unfold AppendRequest.isValid at h
  cases hv : Event.validate_component_id r.scope r.component_id with
  | ok u => rw [hv] at h; simp at h
  | error e => simp [hv]

theorem append_with_parent_valid (t : EventStream) (r : AppendRequest)
    (h : r.isValid = true) :
    ∃ ev, (t.append_with_parent r) =
      ({ history := t.history ++ [ev], next_offset := t.next_offset + 1 },
        .ok ev) ∧ ev.offset = t.next_offset := by
  unfold AppendRequest.isValid at h
  cases hv : Event.validate_component_id r.scope r.component_id with
  | error e => rw [hv] at h; simp at h
  | ok u =>
      refine ⟨Event.mk t.next_offset r.scope r.event_type r.component_id
        r.status r.workflow_id r.parent_workflow_id r.message r.data, ?_,
        rfl⟩
      unfold EventStream.append_with_parent Event.with_parent
      rw [hv]

theorem appendAll_spec (reqs : List AppendRequest) :
    ∀ (s : EventStream),
      (s.appendAll reqs).next_offset = s.next_offset + reqs.length ∧
      (s.appendAll reqs).history.map Event.offset =
        s.history.map Event.offset ++
          ((List.enumFrom s.next_offset reqs).filter fun p =>
            p.2.isValid).map Prod.fst := by
  induction reqs with
  | nil => intro s; simp [EventStream.appendAll]
  | cons r rest ih =>
      intro s
      have hstep : (s.appendAll (r :: rest)) =
          ((s.append_with_parent r).1.appendAll rest) := by
        simp [EventStream.appendAll]
      rw [hstep]
      by_cases hv : r.isValid
      · obtain ⟨ev, heq, hoff⟩ := append_with_parent_valid s r hv
        have hn' : (((⟨s.history ++ [ev], s.next_offset + 1⟩ :
            EventStream)).appendAll rest).next_offset =
            s.next_offset + 1 + rest.length := by
          simpa using (ih ⟨s.history ++ [ev], s.next_offset + 1⟩).1
        have hh' : (((⟨s.history ++ [ev], s.next_offset + 1⟩ :
            EventStream)).appendAll rest).history.map Event.offset =
            (s.history ++ [ev]).map Event.offset ++
              ((List.enumFrom (s.next_offset + 1) rest).filter fun p =>
                p.2.isValid).map Prod.fst := by
          simpa using (ih ⟨s.history ++ [ev], s.next_offset + 1⟩).2
        rw [heq]
        refine ⟨?_, ?_⟩
        · rw [show (((⟨s.history ++ [ev], s.next_offset + 1⟩ : EventStream),
            Except.ok ev).1) = (⟨s.history ++ [ev], s.next_offset + 1⟩ :
            EventStream) from rfl, hn']
          simp [List.length_cons]
          omega
        · rw [show (((⟨s.history ++ [ev], s.next_offset + 1⟩ : EventStream),
            Except.ok ev).1) = (⟨s.history ++ [ev], s.next_offset + 1⟩ :
            EventStream) from rfl, hh']
          simp [List.enumFrom_cons, List.filter_cons, hv, hoff]
      · have hv' : r.isValid = false := by simpa using hv
        obtain ⟨hh0, hn0⟩ := append_with_parent_invalid s r hv'
        obtain ⟨hn, hh⟩ := ih (s.append_with_parent r).1
        rw [hn0] at hn
        rw [hh0, hn0] at hh
        refine ⟨by rw [hn]; simp [List.length_cons]; omega, ?_⟩
        rw [hh, List.enumFrom_cons, List.filter_cons]
        simp [hv']

/-- C3 (amended): starting from a fresh stream, every append — successful or
failed — advances the next-offset counter by exactly one, so after `n`
appends the counter reads `n`; the offsets of the successfully appended
events are the positions of the valid requests in the submitted sequence,
strictly increasing with no duplicates; they form the contiguous range
`0..n-1` exactly when every append passed validation.  An append whose
component id fails per-scope validation returns an input-validation error
and leaves the history unchanged — but it does consume an offset: the
counter still advances, leaving a gap at the failed position. -/
theorem c3_event_stream_offsets (reqs : List AppendRequest) :
    (EventStream.new.appendAll reqs).next_offset = reqs.length ∧
    (EventStream.new.appendAll reqs).history.map Event.offset =
      ((reqs.enum.filter fun p => p.2.isValid).map Prod.fst) ∧
    List.Pairwise (· < ·)
      ((EventStream.new.appendAll reqs).history.map Event.offset) ∧
    ((∀ r ∈ reqs, r.isValid = true) →
      (EventStream.new.appendAll reqs).history.map Event.offset =
        List.range reqs.length) ∧
    (∀ (t : EventStream) (r : AppendRequest), r.isValid = false →
      (t.append_with_parent r).1.history = t.history ∧
      (t.append_with_parent r).1.next_offset = t.next_offset + 1) := by
  obtain ⟨hn, hh⟩ := appendAll_spec reqs EventStream.new
  simp only [EventStream.new, List.map_nil, List.nil_append, Nat.zero_add]
    at hn hh ⊢
  have henum : List.enumFrom 0 reqs = reqs.enum :=
    (List.enum_eq_enumFrom).symm
  rw [henum] at hh
  have hsub : ((reqs.enum.filter fun p => p.2.isValid).map Prod.fst).Sublist
      (reqs.enum.map Prod.fst) :=
    List.Sublist.map Prod.fst (List.filter_sublist _)
  have hpw : List.Pairwise (· < ·)
      ((reqs.enum.filter fun p => p.2.isValid).map Prod.fst) := by
    refine List.Pairwise.sublist hsub ?_
    rw [List.enum_map_fst]
    exact List.pairwise_lt_range _
  refine ⟨hn, hh, by rw [hh]; exact hpw, ?_, append_with_parent_invalid⟩
  intro hall
  rw [hh]
  have hfe : reqs.enum.filter (fun p => p.2.isValid) = reqs.enum := by
    rw [List.filter_eq_self]
    intro p hp
    obtain ⟨hlt, hx⟩ := List.mem_enum hp
    have : p.2 ∈ reqs := by rw [hx]; exact List.getElem_mem hlt
    simpa using hall _ this
  rw [hfe, List.enum_map_fst]

/-- C3 counterexample: a single failed append (WorkflowStep scope with the
malformed id `"badformat"`) advances the next-offset counter from 0 to 1
while appending nothing, so the claim's "no offset is consumed" fails; the
next successful append then gets offset 1, so the successful offsets are
`[1]` — not a contiguous range starting at 0. -/
theorem c3_counterexample :
    ((EventStream.new.append_with_parent
        { scope := .workflowStep, event_type := .started,
          component_id := "badformat", status := .running,
          workflow_id := "wf", parent_workflow_id := none, message := none,
          data := .null }).2.toOption = none) ∧
    ((EventStream.new.append_with_parent
        { scope := .workflowStep, event_type := .started,
          component_id := "badformat", status := .running,
          workflow_id := "wf", parent_workflow_id := none, message := none,
          data := .null }).1.next_offset = 1) ∧
    ((EventStream.new.append_with_parent
        { scope := .workflowStep, event_type := .started,
          component_id := "badformat", status := .running,
          workflow_id := "wf", parent_workflow_id := none, message := none,
          data := .null }).1.history = []) ∧
    (((EventStream.new.append_with_parent
        { scope := .workflowStep, event_type := .started,
          component_id := "badformat", status := .running,
          workflow_id := "wf", parent_workflow_id := none, message := none,
          data := .null }).1.append_with_parent
        { scope := .agent, event_type := .started,
          component_id := "agent1", status := .running,
          workflow_id := "wf", parent_workflow_id := none, message := none,
          data := .null }).1.history.map Event.offset = [1]) := by
  refine ⟨rfl, rfl, rfl, rfl⟩

/-- C3 witness: the amended statement applied to two valid agent-scope
appends — both succeed and the offsets form the contiguous range `[0, 1]`. -/
theorem c3_event_stream_offsets_witness :
    (EventStream.new.appendAll
        [{ scope := .agent, event_type := .started, component_id := "a1",
           status := .running, workflow_id := "wf",
           parent_workflow_id := none, message := none, data := .null },
         { scope := .agent, event_type := .completed, component_id := "a1",
           status := .completed, workflow_id := "wf",
           parent_workflow_id := none, message := none,
           data := .null }]).history.map Event.offset = List.range 2 :=
  (c3_event_stream_offsets _).2.2.2.1 (by decide)

end AgentRuntime

namespace AgentRuntime

/-! ### C4 — workflow step failure (`Runtime::execute_with_parent`) -/

theorem runtimeLoop_spec (steps : List RtStep) :
    ∀ (run : WorkflowRun) (events : List RtEvent) (base : Nat) (data : Json),
      run.steps.map WorkflowStepRecord.step_index = List.range base →
      (let r := runtimeLoop run events base data steps
       (r.1.state = WorkflowState.completed ∧
         r.1.steps.map WorkflowStepRecord.step_index =
           List.range (base + steps.length)) ∨
       (r.1.state = WorkflowState.failed ∧
         ∃ k e, base ≤ k ∧ k < base + steps.length ∧
           r.1.steps.map WorkflowStepRecord.step_index = List.range k ∧
           RtEvent.stepFailed k e ∈ r.2 ∧ RtEvent.workflowFailed e ∈ r.2)) := by
  induction steps with
  | nil =>
      intro run events base data hidx
      left
      exact ⟨rfl, by simpa using hidx⟩
  | cons step rest ih =>
      intro run events base data hidx
      simp only [runtimeLoop]
      cases hrun : step.run data with
      | ok output =>
          have hidx' :
              (run.steps ++
                [({ step_index := base, step_name := step.name,
                    step_type := step.step_type, input := data,
                    output := some output.1,
                    execution_time_ms := some output.2 } :
                  WorkflowStepRecord)]).map
                WorkflowStepRecord.step_index = List.range (base + 1) := by
            simp [hidx, List.range_succ]
          have h := ih { run with steps := run.steps ++
              [({ step_index := base, step_name := step.name,
                  step_type := step.step_type, input := data,
                  output := some output.1,
                  execution_time_ms := some output.2 } :
                WorkflowStepRecord)] }
            ((events ++ [RtEvent.stepStarted base]) ++
              [RtEvent.stepCompleted base])
            (base + 1) output.1 (by simpa using hidx')
          simp only at h ⊢
          rcases h with ⟨hstate, hsteps⟩ | ⟨hstate, k, e, hk1, hk2, hsteps, he1, he2⟩
          · left
            refine ⟨hstate, ?_⟩
            rw [hsteps]
            congr 1
            simp [List.length_cons]
            omega
          · right
            exact ⟨hstate, k, e, by omega, by simp [List.length_cons]; omega,
              hsteps, he1, he2⟩
      | error e =>
          right
          refine ⟨rfl, base, e, Nat.le_refl _, by simp [List.length_cons], hidx,
            ?_, ?_⟩ <;> simp

/-- C4 (amended): when a step fails during `Runtime` execution, the run
transitions to the `Failed` state and both a `workflow_step failed` and a
`workflow failed` event are emitted — but the returned run record enumerates
only the steps completed before the failure (records for step indices
`0..k-1`); no record is pushed for the failed step `k`, which is identified
by the failed events and the run state rather than by a step record. -/
theorem c4_step_failure (workflow_id : String) (steps : List RtStep)
    (initial_input : Json) (parent : Option String)
    (hfail : (Runtime.execute_with_parent workflow_id steps initial_input
      parent).1.state = WorkflowState.failed) :
    ∃ k e, k < steps.length ∧
      RtEvent.stepFailed k e ∈
        (Runtime.execute_with_parent workflow_id steps initial_input parent).2 ∧
      RtEvent.workflowFailed e ∈
        (Runtime.execute_with_parent workflow_id steps initial_input parent).2 ∧
      (Runtime.execute_with_parent workflow_id steps initial_input
          parent).1.steps.map WorkflowStepRecord.step_index = List.range k ∧
      k ∉ (Runtime.execute_with_parent workflow_id steps initial_input
          parent).1.steps.map WorkflowStepRecord.step_index := by
  have hre : Runtime.execute_with_parent workflow_id steps initial_input
      parent = runtimeLoop
        { workflow_id := workflow_id, state := WorkflowState.running,
          steps := [], final_output := none, parent_workflow_id := parent }
        [RtEvent.workflowStarted] 0 initial_input steps := rfl
  rw [hre] at hfail ⊢
  have h := runtimeLoop_spec steps
    { workflow_id := workflow_id, state := WorkflowState.running,
      steps := [], final_output := none, parent_workflow_id := parent }
    [RtEvent.workflowStarted] 0 initial_input (by simp)
  simp only at h
  rcases h with ⟨hstate, _⟩ | ⟨_, k, e, _, hk2, hsteps, he1, he2⟩
  · rw [hstate] at hfail
    exact absurd hfail (by simp)
  · refine ⟨k, e, by simpa using hk2, he1, he2, hsteps, ?_⟩
    rw [hsteps]
    simp

/-- C4 witness: a two-step workflow whose second step fails — the run is
`Failed`, the failed events for step 1 are present, and the run's step
records cover exactly the completed step 0. -/
theorem c4_step_failure_witness :
    ∃ k e, k < 2 ∧
      RtEvent.stepFailed k e ∈
        (Runtime.execute_with_parent "wf"
          [{ name := "s0", step_type := "Transform",
             run := fun d => .ok (d, 1) },
           { name := "s1", step_type := "Agent",
             run := fun _ => .error "boom" }] Json.null none).2 ∧
      RtEvent.workflowFailed e ∈
        (Runtime.execute_with_parent "wf"
          [{ name := "s0", step_type := "Transform",
             run := fun d => .ok (d, 1) },
           { name := "s1", step_type := "Agent",
             run := fun _ => .error "boom" }] Json.null none).2 ∧
      (Runtime.execute_with_parent "wf"
          [{ name := "s0", step_type := "Transform",
             run := fun d => .ok (d, 1) },
           { name := "s1", step_type := "Agent",
             run := fun _ => .error "boom" }] Json.null none).1.steps.map
        WorkflowStepRecord.step_index = List.range k ∧
      k ∉ (Runtime.execute_with_parent "wf"
          [{ name := "s0", step_type := "Transform",
             run := fun d => .ok (d, 1) },
           { name := "s1", step_type := "Agent",
             run := fun _ => .error "boom" }] Json.null none).1.steps.map
        WorkflowStepRecord.step_index := by
  have h := c4_step_failure "wf"
    [{ name := "s0", step_type := "Transform", run := fun d => .ok (d, 1) },
     { name := "s1", step_type := "Agent", run := fun _ => .error "boom" }]
    Json.null none rfl
  simpa using h

/-- C4 counterexample: a workflow with a single failing step — the run is
`Failed` but its step-record list is empty, so the failed step does not
appear in the run's step records, contradicting the claim that it does. -/
theorem c4_counterexample :
    (Runtime.execute_with_parent "wf"
      [{ name := "s0", step_type := "Agent", run := fun _ => .error "boom" }]
      Json.null none).1.state = WorkflowState.failed ∧
    (Runtime.execute_with_parent "wf"
      [{ name := "s0", step_type := "Agent", run := fun _ => .error "boom" }]
      Json.null none).1.steps = [] := by
  exact ⟨rfl, rfl⟩

end AgentRuntime

namespace AgentRuntime

/-! ### C6, C7 — context-manager pruning laws -/

theorem pruneLoop_sublist (m : TokenBudgetManager) :
    ∀ (l : List ChatMessage) (c : Nat), ((m.pruneLoop l c).1).Sublist l := by
  intro l
  induction l with
  | nil =>
      intro c
      rw [TokenBudgetManager.pruneLoop]
      split
      · exact List.Sublist.refl _
      · exact List.Sublist.refl _
  | cons removed rest ih =>
      intro c
      rw [TokenBudgetManager.pruneLoop]
      split
      · exact (ih _).cons removed
      · exact List.Sublist.refl _

theorem tb_prune_sublist (m : TokenBudgetManager) (H : List ChatMessage) :
    ((m.prune H).1).Sublist H := by
  unfold TokenBudgetManager.prune
  by_cases h : H.length ≤ m.min_messages_to_keep
  · simp [h]
  · simp only [h, if_false]
    rw [drop_length_takeWhile]
    conv_rhs => rw [← @List.takeWhile_append_dropWhile _
      (fun msg => msg.role == Role.system) H]
    exact List.Sublist.append (List.Sublist.refl _) (pruneLoop_sublist m _ _)

theorem sw_prune_sublist (m : SlidingWindowManager) (H : List ChatMessage) :
    ((m.prune H).1).Sublist H := by
  unfold SlidingWindowManager.prune
  by_cases h : H.length ≤ m.max_messages
  · simp [h]
  · simp only [h, if_false]
    conv_rhs => rw [← List.take_append_drop
      ((H.takeWhile fun msg => msg.role == Role.system).length) H]
    exact List.Sublist.append (List.Sublist.refl _) (List.drop_sublist _ _)

theorem mt_protected_sublist (m : MessageTypeManager) (H : List ChatMessage) :
    (m.protectedMessages H).Sublist H := by
  unfold MessageTypeManager.protectedMessages
  have h := List.Sublist.map Prod.snd
    (@List.filter_sublist _ (fun p =>
      p.2.role == Role.system ||
        (MessageTypeManager.extract_recent_pairs H
          m.keep_recent_pairs).contains p.1) H.enum)
  rwa [List.enum_map_snd] at h

theorem sortByPriority_perm (l : List ChatMessage) :
    (MessageTypeManager.sortByPriority l).Perm l := by
  induction l with
  | nil => simp [MessageTypeManager.sortByPriority]
  | cons msg t ih =>
      have hc : MessageTypeManager.classify_message msg = 0 ∨
          MessageTypeManager.classify_message msg = 1 ∨
          MessageTypeManager.classify_message msg = 2 := by
        cases h : msg.role <;>
          simp [MessageTypeManager.classify_message, h]
      unfold MessageTypeManager.sortByPriority at ih ⊢
      rcases hc with hc | hc | hc
      · simp only [List.filter_cons, hc, show ((0 : Nat) == 0) = true from rfl,
          show ((0 : Nat) == 1) = false from rfl,
          show ((0 : Nat) == 2) = false from rfl, if_true, if_false]
        rw [List.cons_append, List.cons_append]
        exact ih.cons msg
      · simp only [List.filter_cons, hc, show ((1 : Nat) == 0) = false from rfl,
          show ((1 : Nat) == 1) = true from rfl,
          show ((1 : Nat) == 2) = false from rfl, if_true, if_false]
        rw [List.append_assoc, List.cons_append]
        have ih' : List.Perm
            ((t.filter fun m => MessageTypeManager.classify_message m == 0) ++
              ((t.filter fun m =>
                MessageTypeManager.classify_message m == 1) ++
                (t.filter fun m =>
                  MessageTypeManager.classify_message m == 2))) t := by
          rw [← List.append_assoc]; exact ih
        exact List.perm_middle.trans (ih'.cons msg)
      · simp only [List.filter_cons, hc, show ((2 : Nat) == 0) = false from rfl,
          show ((2 : Nat) == 1) = false from rfl,
          show ((2 : Nat) == 2) = true from rfl, if_true, if_false]
        exact List.perm_middle.trans (ih.cons msg)

theorem mt_prune_map_sum_le (m : MessageTypeManager) (H : List ChatMessage)
    (f : ChatMessage → Nat) :
    (((m.prune H).1).map f).sum ≤ (H.map f).sum := by
  unfold MessageTypeManager.prune
  by_cases h : H.length ≤ m.max_messages
  · simp [h]
  · simp only [h, if_false]
    have hbase : ((m.protectedMessages H).map f).sum ≤ (H.map f).sum :=
      sum_map_le_of_sublist f (mt_protected_sublist m H)
    by_cases hover : (m.protectedMessages H).length > m.max_messages
    · simp only [hover, if_true]
      have htake : ((((MessageTypeManager.sortByPriority
          (m.protectedMessages H)).take m.max_messages)).map f).sum ≤
          (((MessageTypeManager.sortByPriority
            (m.protectedMessages H))).map f).sum :=
        sum_map_le_of_sublist f (List.take_sublist _ _)
      have hperm : (((MessageTypeManager.sortByPriority
          (m.protectedMessages H))).map f).sum =
          ((m.protectedMessages H).map f).sum :=
        ((sortByPriority_perm (m.protectedMessages H)).map f).sum_eq
      omega
    · simp only [hover, if_false]
      exact hbase

/-- C6 (amended): for the NoOp, TokenBudget, SlidingWindow and MessageType
strategies — unconditionally, hence in particular whenever `should_prune`
holds — the strategy's own token estimate of the pruned history never exceeds
its estimate of the input history.  (The Summarisation strategy violates the
law: see the counterexample.) -/
theorem c6_budget_law :
    (∀ (m : NoOpManager) (H : List ChatMessage),
      m.estimate_tokens (m.prune H).1 ≤ m.estimate_tokens H) ∧
    (∀ (m : TokenBudgetManager) (H : List ChatMessage),
      m.estimate_tokens (m.prune H).1 ≤ m.estimate_tokens H) ∧
    (∀ (m : SlidingWindowManager) (H : List ChatMessage),
      m.estimate_tokens (m.prune H).1 ≤ m.estimate_tokens H) ∧
    (∀ (m : MessageTypeManager) (H : List ChatMessage),
      m.estimate_tokens (m.prune H).1 ≤ m.estimate_tokens H) := by
  refine ⟨fun m H => Nat.le_refl _, fun m H => ?_, fun m H => ?_, fun m H => ?_⟩
  · exact sum_map_le_of_sublist _ (tb_prune_sublist m H)
  · exact sum_map_le_of_sublist _ (sw_prune_sublist m H)
  · exact mt_prune_map_sum_le m H _

set_option maxRecDepth 8192 in
/-- C6 counterexample: a Summarisation manager with threshold 10 and
`keep_recent_count = 0` over six short user messages.  `should_prune` holds
(estimate 18 > 10), but `prune` replaces the history with a single synthetic
summary message whose content is far longer than the originals: the estimate
rises from 18 to above it, refuting the budget law for Summarisation. -/
theorem c6_counterexample :
    (SummarizationManager.should_prune ⟨10, 50, 18000, 0⟩
      (List.replicate 6 (ChatMessage.user "12345678"))
      (SummarizationManager.estimate_tokens ⟨10, 50, 18000, 0⟩
        (List.replicate 6 (ChatMessage.user "12345678")))) = true ∧
    ¬ (SummarizationManager.estimate_tokens ⟨10, 50, 18000, 0⟩
        (SummarizationManager.prune ⟨10, 50, 18000, 0⟩
          (List.replicate 6 (ChatMessage.user "12345678"))).1 ≤
      SummarizationManager.estimate_tokens ⟨10, 50, 18000, 0⟩
        (List.replicate 6 (ChatMessage.user "12345678"))) := by
  refine ⟨by decide, by decide⟩

theorem leading_systems_sublist_protected (m : MessageTypeManager)
    (H : List ChatMessage) :
    (leadingSystems H).Sublist (m.protectedMessages H) := by
  refine (takeWhile_sublist_filter _ H).trans ?_
  unfold MessageTypeManager.protectedMessages
  have hfe : H.filter (fun msg => msg.role == Role.system) =
      (H.enum.filter fun p => p.2.role == Role.system).map Prod.snd := by
    rw [List.enum_eq_enumFrom]
    exact (enumFrom_filter_map_snd _ 0 H).symm
  rw [hfe]
  refine List.Sublist.map Prod.snd ?_
  refine List.monotone_filter_right _ ?_
  intro p hp
  simp [hp]

/-- C7 (amended): every leading system message of the input history is
present, in the same relative order, in the history returned by `prune` for
the TokenBudget and SlidingWindow strategies on every input, and for the
MessageType strategy provided the protected set (all system messages plus the
preserved recent pairs) fits within `max_messages` — when it does not, the
final priority truncation keeps only the first `max_messages` protected
messages and can drop later system messages. -/
theorem c7_system_preservation :
    (∀ (m : TokenBudgetManager) (H : List ChatMessage),
      (leadingSystems H).Sublist (m.prune H).1) ∧
    (∀ (m : SlidingWindowManager) (H : List ChatMessage),
      (leadingSystems H).Sublist (m.prune H).1) ∧
    (∀ (m : MessageTypeManager) (H : List ChatMessage),
      H.length ≤ m.max_messages ∨
        (m.protectedMessages H).length ≤ m.max_messages →
      (leadingSystems H).Sublist (m.prune H).1) := by
  refine ⟨fun m H => ?_, fun m H => ?_, fun m H hcond => ?_⟩
  · unfold TokenBudgetManager.prune
    by_cases h : H.length ≤ m.min_messages_to_keep
    · simpa [h] using takeWhile_sublist_self _ H
    · simp only [h, if_false]
      exact List.sublist_append_left _ _
  · unfold SlidingWindowManager.prune
    by_cases h : H.length ≤ m.max_messages
    · simpa [h] using takeWhile_sublist_self _ H
    · simp only [h, if_false]
      rw [show (H.take
          ((H.takeWhile fun msg => msg.role == Role.system).length)) =
        leadingSystems H from take_length_takeWhile _ H]
      exact List.sublist_append_left _ _
  · unfold MessageTypeManager.prune
    by_cases h : H.length ≤ m.max_messages
    · simpa [h] using takeWhile_sublist_self _ H
    · have hprot : (m.protectedMessages H).length ≤ m.max_messages := by
        rcases hcond with hc | hc
        · omega
        · exact hc
      simp only [h, if_false]
      rw [if_neg (by omega)]
      exact leading_systems_sublist_protected m H

/-- C7 witness: the amended statement applied to a short history under each
of the three strategies. -/
theorem c7_system_preservation_witness :
    (leadingSystems [ChatMessage.system "s", ChatMessage.user "u"]).Sublist
      ((TokenBudgetManager.prune ⟨100, 3, 10⟩
        [ChatMessage.system "s", ChatMessage.user "u"]).1) ∧
    (leadingSystems [ChatMessage.system "s", ChatMessage.user "u"]).Sublist
      ((SlidingWindowManager.prune ⟨4, 3⟩
        [ChatMessage.system "s", ChatMessage.user "u"]).1) ∧
    (leadingSystems [ChatMessage.system "s", ChatMessage.user "u"]).Sublist
      ((MessageTypeManager.prune ⟨10, 2⟩
        [ChatMessage.system "s", ChatMessage.user "u"]).1) :=
  ⟨c7_system_preservation.1 ⟨100, 3, 10⟩ _,
   c7_system_preservation.2.1 ⟨4, 3⟩ _,
   c7_system_preservation.2.2 ⟨10, 2⟩ _ (Or.inl (by decide))⟩

/-- C7 counterexample: `MessageTypeManager::new(2, 0)` over a history of
three system messages.  `should_prune` fires (3 > 2), all three messages are
protected, and the stable priority truncation keeps only the first two — the
third leading system message is dropped from the output. -/
theorem c7_counterexample :
    (MessageTypeManager.should_prune ⟨2, 0⟩
      [ChatMessage.system "a", ChatMessage.system "b", ChatMessage.system "c"]
      0) = true ∧
    ¬ (leadingSystems
        [ChatMessage.system "a", ChatMessage.system "b",
         ChatMessage.system "c"]).Sublist
      ((MessageTypeManager.prune ⟨2, 0⟩
        [ChatMessage.system "a", ChatMessage.system "b",
         ChatMessage.system "c"]).1) := by
  constructor
  · decide
  · intro hsub
    have hlen := hsub.length_le
    have h1 : (leadingSystems
        [ChatMessage.system "a", ChatMessage.system "b",
         ChatMessage.system "c"]).length = 3 := by decide
    have hext : MessageTypeManager.extract_recent_pairs
        [ChatMessage.system "a", ChatMessage.system "b",
         ChatMessage.system "c"] 0 = [] := by
      rw [MessageTypeManager.extract_recent_pairs, extractRecentPairsLoop]
      simp
    have hprot : MessageTypeManager.protectedMessages ⟨2, 0⟩
        [ChatMessage.system "a", ChatMessage.system "b",
         ChatMessage.system "c"] =
        [ChatMessage.system "a", ChatMessage.system "b",
         ChatMessage.system "c"] := by
      rw [MessageTypeManager.protectedMessages, hext]
      rfl
    have h2 : ((MessageTypeManager.prune ⟨2, 0⟩
        [ChatMessage.system "a", ChatMessage.system "b",
         ChatMessage.system "c"]).1).length = 2 := by
      rw [MessageTypeManager.prune]
      simp only [hprot]
      rfl
    omega

end AgentRuntime

namespace AgentRuntime

/-! ### C2 — agent iteration bound -/

theorem processToolCall_modelCalls (cfg : AgentConfig) (s : AgentLoopState)
    (tc : ToolCall) : (processToolCall cfg s tc).modelCalls = s.modelCalls := by
  unfold processToolCall processToolCallExec
  rcases htr : s.tracker with _ | tr <;>
    rcases hld : cfg.tool_loop_detection with _ | lc <;> simp
  by_cases he : lc.enabled
  · simp only [he, if_true]
    rcases hck : tr.check_for_loop tc.function.name
        (canonical_args_entries tc.function.arguments) with _ | prev <;> simp
  · simp [he]

theorem foldl_processToolCall_modelCalls (cfg : AgentConfig)
    (tcs : List ToolCall) :
    ∀ (s : AgentLoopState),
      (tcs.foldl (processToolCall cfg) s).modelCalls = s.modelCalls := by
  induction tcs with
  | nil => intro s; rfl
  | cons tc rest ih =>
      intro s
      rw [List.foldl_cons, ih, processToolCall_modelCalls]

theorem agentFinalize_modelCalls (response : ChatResponse)
    (s : AgentLoopState) :
    (agentFinalize response s).2.modelCalls = s.modelCalls := rfl

theorem agentLoop_modelCalls_le (cfg : AgentConfig)
    (client : Nat → Except String ChatResponse) (iteration : Nat)
    (s : AgentLoopState) :
    (agentLoop cfg client iteration s).2.modelCalls ≤
      s.modelCalls + (cfg.max_tool_iterations - iteration) := by
  induction iteration, s using agentLoop.induct cfg client with
  | case1 iteration s iter hgt =>
      have hiter : iter = iteration + 1 := rfl
      rw [hiter] at hgt
      rw [agentLoop, dif_pos hgt]
      show s.modelCalls ≤ s.modelCalls + (cfg.max_tool_iterations - iteration)
      omega
  | case2 iteration s iter hnot response hok calls htc hempty =>
      have hiter : iter = iteration + 1 := rfl
      rw [hiter] at hnot hok
      rw [agentLoop, dif_neg hnot]
      simp only [hok, htc, hempty, if_true]
      rw [agentFinalize_modelCalls]
      show s.modelCalls + 1 ≤ s.modelCalls + (cfg.max_tool_iterations - iteration)
      omega
  | case3 iteration s iter hnot s1 response hok s2 calls htc hne s3 s4 ih =>
      have hiter : iter = iteration + 1 := rfl
      rw [hiter] at hnot hok ih
      rw [agentLoop, dif_neg hnot]
      simp only [hok, htc]
      rw [if_neg hne]
      have hm : s4.modelCalls = s.modelCalls + 1 := by
        rw [show s4 = List.foldl (processToolCall cfg) s3 calls from rfl,
          foldl_processToolCall_modelCalls]
      refine le_trans ih ?_
      rw [hm]
      show s.modelCalls + 1 + (cfg.max_tool_iterations - (iteration + 1)) ≤
        s.modelCalls + (cfg.max_tool_iterations - iteration)
      omega
  | case4 iteration s iter hnot response hok htc =>
      have hiter : iter = iteration + 1 := rfl
      rw [hiter] at hnot hok
      rw [agentLoop, dif_neg hnot]
      simp only [hok, htc]
      rw [agentFinalize_modelCalls]
      show s.modelCalls + 1 ≤ s.modelCalls + (cfg.max_tool_iterations - iteration)
      omega
  | case5 iteration s iter hnot e herr =>
      have hiter : iter = iteration + 1 := rfl
      rw [hiter] at hnot herr
      rw [agentLoop, dif_neg hnot]
      simp only [herr]
      show s.modelCalls + 1 ≤ s.modelCalls + (cfg.max_tool_iterations - iteration)
      omega

theorem agentLoop_cap (cfg : AgentConfig)
    (client : Nat → Except String ChatResponse) (iteration : Nat)
    (s : AgentLoopState)
    (hcalls : ∀ i, iteration < i → i ≤ cfg.max_tool_iterations →
      ∃ resp calls, client i = .ok resp ∧ resp.tool_calls = some calls ∧
        calls ≠ []) :
    (agentLoop cfg client iteration s).1 =
      .error ("Maximum tool iterations (" ++
        toString cfg.max_tool_iterations ++ ") exceeded") ∧
    (agentLoop cfg client iteration s).2.modelCalls =
      s.modelCalls + (cfg.max_tool_iterations - iteration) := by
  induction iteration, s using agentLoop.induct cfg client with
  | case1 iteration s iter hgt =>
      have hiter : iter = iteration + 1 := rfl
      rw [hiter] at hgt
      rw [agentLoop, dif_pos hgt]
      refine ⟨rfl, ?_⟩
      show s.modelCalls = s.modelCalls + (cfg.max_tool_iterations - iteration)
      omega
  | case2 iteration s iter hnot response hok calls htc hempty =>
      exfalso
      have hiter : iter = iteration + 1 := rfl
      rw [hiter] at hnot hok
      obtain ⟨resp, calls', hok', htc', hne⟩ :=
        hcalls (iteration + 1) (by omega) (by omega)
      rw [hok] at hok'
      injection hok' with hok'
      subst hok'
      rw [htc] at htc'
      injection htc' with htc'
      subst htc'
      rw [List.isEmpty_iff] at hempty
      exact hne hempty
  | case3 iteration s iter hnot s1 response hok s2 calls htc hne s3 s4 ih =>
      have hiter : iter = iteration + 1 := rfl
      rw [hiter] at hnot hok ih
      have hcalls' : ∀ i, iteration + 1 < i → i ≤ cfg.max_tool_iterations →
          ∃ resp calls, client i = .ok resp ∧ resp.tool_calls = some calls ∧
            calls ≠ [] := fun i h1 h2 => hcalls i (by omega) h2
      obtain ⟨ih1, ih2⟩ := ih hcalls'
      rw [agentLoop, dif_neg hnot]
      simp only [hok, htc]
      rw [if_neg hne]
      have hm : s4.modelCalls = s.modelCalls + 1 := by
        rw [show s4 = List.foldl (processToolCall cfg) s3 calls from rfl,
          foldl_processToolCall_modelCalls]
      refine ⟨ih1, ?_⟩
      rw [ih2, hm]
      show s.modelCalls + 1 + (cfg.max_tool_iterations - (iteration + 1)) =
        s.modelCalls + (cfg.max_tool_iterations - iteration)
      omega
  | case4 iteration s iter hnot response hok htc =>
      exfalso
      have hiter : iter = iteration + 1 := rfl
      rw [hiter] at hnot hok
      obtain ⟨resp, calls', hok', htc', hne⟩ :=
        hcalls (iteration + 1) (by omega) (by omega)
      rw [hok] at hok'
      injection hok' with hok'
      subst hok'
      rw [htc] at htc'
      exact Option.noConfusion htc'
  | case5 iteration s iter hnot e herr =>
      exfalso
      have hiter : iter = iteration + 1 := rfl
      rw [hiter] at hnot herr
      obtain ⟨resp, calls', hok', htc', hne⟩ :=
        hcalls (iteration + 1) (by omega) (by omega)
      rw [herr] at hok'
      exact Except.noConfusion hok'

/-- C2: an agent run performs at most `max_tool_iterations` model calls: the
iteration counter starts at 0 and is incremented at the top of each loop
before any work, and when the model keeps emitting tool calls the run fails,
after exactly `max_tool_iterations` model calls, with an execution error
naming the limit. -/
theorem c2_iteration_bound (cfg : AgentConfig) (input : AgentInput) :
    (∀ client, (Agent.execute_with_events cfg input client).2.modelCalls ≤
      cfg.max_tool_iterations) ∧
    (∀ client : Nat → Except String ChatResponse,
      (∀ i, 1 ≤ i → i ≤ cfg.max_tool_iterations →
        ∃ resp calls, client i = .ok resp ∧ resp.tool_calls = some calls ∧
          calls ≠ []) →
      (Agent.execute_with_events cfg input (some client)).1 =
        .error ("Maximum tool iterations (" ++
          toString cfg.max_tool_iterations ++ ") exceeded") ∧
      (Agent.execute_with_events cfg input (some client)).2.modelCalls =
        cfg.max_tool_iterations) := by
  constructor
  · intro client
    cases client with
    | none => simp [Agent.execute_with_events]
    | some clientF =>
        have hre : Agent.execute_with_events cfg input (some clientF) =
            agentLoop cfg clientF 0
              { messages := [ChatMessage.system cfg.system_prompt,
                  ChatMessage.user (Json.serializeInput input.data)],
                total_tool_calls := 0,
                tracker := if cfg.tool_loop_detection.isSome then
                  some ToolCallTracker.new else none,
                events := [AgentEvent.processing], modelCalls := 0,
                emitted := [], dispatched := [], registryCalls := [],
                suppressed := [] } := rfl
        rw [hre]
        refine le_trans (agentLoop_modelCalls_le cfg clientF 0 _) ?_
        show 0 + (cfg.max_tool_iterations - 0) ≤ cfg.max_tool_iterations
        omega
  · intro clientF hcalls
    have hre : Agent.execute_with_events cfg input (some clientF) =
        agentLoop cfg clientF 0
          { messages := [ChatMessage.system cfg.system_prompt,
              ChatMessage.user (Json.serializeInput input.data)],
            total_tool_calls := 0,
            tracker := if cfg.tool_loop_detection.isSome then
              some ToolCallTracker.new else none,
            events := [AgentEvent.processing], modelCalls := 0,
            emitted := [], dispatched := [], registryCalls := [],
            suppressed := [] } := rfl
    rw [hre]
    obtain ⟨h1, h2⟩ := agentLoop_cap cfg clientF 0 _
      (fun i hi1 hi2 => hcalls i (by omega) hi2)
    refine ⟨h1, ?_⟩
    rw [h2]
    show 0 + (cfg.max_tool_iterations - 0) = cfg.max_tool_iterations
    omega

/-- C2 witness: with `max_tool_iterations = 2` and a model that always emits
one tool call, the run fails with the execution error naming the limit after
exactly 2 model calls. -/
theorem c2_iteration_bound_witness :
    (Agent.execute_with_events
      { name := "a", system_prompt := "sp", tools := none,
        max_tool_iterations := 2, tool_loop_detection := none }
      { data := Json.str "hi" }
      (some (fun _ => .ok
        { content := "", usage := none,
          tool_calls := some [ToolCall.mk "c1" "function"
            (FunctionCall.mk "t" (some (Json.obj [])))] }))).1 =
      .error ("Maximum tool iterations (" ++ toString 2 ++ ") exceeded") ∧
    (Agent.execute_with_events
      { name := "a", system_prompt := "sp", tools := none,
        max_tool_iterations := 2, tool_loop_detection := none }
      { data := Json.str "hi" }
      (some (fun _ => .ok
        { content := "", usage := none,
          tool_calls := some [ToolCall.mk "c1" "function"
            (FunctionCall.mk "t" (some (Json.obj [])))] }))).2.modelCalls =
      2 :=
  (c2_iteration_bound _ _).2 _
    (fun i _ _ => ⟨_, _, rfl, rfl, by simp⟩)

end AgentRuntime

namespace AgentRuntime

/-! ### C1, C10 — loop-detection invariants of the agent loop -/

theorem check_for_loop_eq_trackerFind (t : ToolCallTracker) (n : String)
    (a : List (String × Json)) :
    t.check_for_loop n a = trackerFind t (n, hash_args a) := rfl

theorem execute_tool_call_no_loop_events (tools : Option ToolRegistry)
    (tc : ToolCall) :
    ((Agent.execute_tool_call tools tc).2.1).countP
      AgentEvent.isLoopDetected = 0 := by
  rcases tools with _ | reg
  · rfl
  · rcases harg : tc.function.arguments with _ | j
    · simp only [Agent.execute_tool_call, harg]
      rfl
    · rcases j with _ | b | n | str | xs | kvs
      · simp only [Agent.execute_tool_call, harg]; rfl
      · simp only [Agent.execute_tool_call, harg]; rfl
      · simp only [Agent.execute_tool_call, harg]; rfl
      · simp only [Agent.execute_tool_call, harg]; rfl
      · simp only [Agent.execute_tool_call, harg]; rfl
      · simp only [Agent.execute_tool_call, harg]
        rcases reg.call_tool tc.function.name kvs with out | e <;> rfl

theorem execute_tool_call_hit (reg : ToolRegistry) (tc : ToolCall)
    (kvs : List (String × Json))
    (h : tc.function.arguments = some (Json.obj kvs)) :
    (Agent.execute_tool_call (some reg) tc).2.2 = true := by
  simp only [Agent.execute_tool_call, h]
  rcases reg.call_tool tc.function.name kvs with out | e <;> rfl

theorem canonical_args_entries_eq_nil_or_obj (arguments : Option Json) :
    canonical_args_entries arguments = [] ∨
    arguments = some (Json.obj (canonical_args_entries arguments)) := by
  rcases arguments with _ | j
  · exact Or.inl rfl
  · rcases j with _ | b | n | str | xs | kvs
    · exact Or.inl rfl
    · exact Or.inl rfl
    · exact Or.inl rfl
    · exact Or.inl rfl
    · exact Or.inl rfl
    · exact Or.inr rfl

theorem firstDispatch_count_pos {d : List (CallKey × String)} {k : CallKey}
    {r : String} (h : firstDispatch d k = some r) :
    1 ≤ (d.map Prod.fst).count k := by
  unfold firstDispatch at h
  rcases hfind : d.find? fun x => x.1 == k with _ | e
  · rw [hfind] at h; exact Option.noConfusion h
  · have hmem := List.mem_of_find?_eq_some hfind
    have hpred := List.find?_some hfind
    have hk : e.1 = k := eq_of_beq hpred
    have : k ∈ d.map Prod.fst := by
      rw [← hk]
      exact List.mem_map_of_mem Prod.fst hmem
    calc 1 = 1 := rfl
    _ ≤ (d.map Prod.fst).count k := List.count_pos_iff.mpr this

theorem firstDispatch_none_count {d : List (CallKey × String)} {k : CallKey}
    (h : firstDispatch d k = none) : (d.map Prod.fst).count k = 0 := by
  unfold firstDispatch at h
  rcases hfind : d.find? fun x => x.1 == k with _ | e
  · rw [List.find?_eq_none] at hfind
    rw [List.count_eq_zero]
    intro hmem
    obtain ⟨x, hx, hxk⟩ := List.mem_map.mp hmem
    exact hfind x hx (by rw [hxk]; exact beq_self_eq_true k)
  · rw [hfind] at h; exact Option.noConfusion h

theorem firstDispatch_append_one (d : List (CallKey × String)) (e : CallKey × String)
    (k : CallKey) :
    firstDispatch (d ++ [e]) k =
      (firstDispatch d k).or (if e.1 == k then some e.2 else none) := by
  unfold firstDispatch
  rw [List.find?_append]
  rcases hfind : d.find? fun x => x.1 == k with _ | v
  · rcases hbe : (e.1 == k) with _ | _
    · rw [hfind]; simp [List.find?, hbe]
    · rw [hfind]; simp [List.find?, hbe]
  · rw [hfind]; simp

theorem trackerFind_append_one (t : ToolCallTracker) (n h' : String) (res : Json)
    (k : CallKey) :
    trackerFind { history := t.history ++ [(n, h', res)] } k =
      (trackerFind t k).or
        (if n == k.1 && h' == k.2 then some res else none) := by
  unfold trackerFind
  rw [List.find?_append]
  rcases hfind : t.history.find? fun e => e.1 == k.1 && e.2.1 == k.2 with _ | v
  · rcases hbe : (n == k.1 && h' == k.2) with _ | _
    · rw [hfind]; simp [List.find?, hbe]
    · rw [hfind]; simp [List.find?, hbe]
  · rw [hfind]; simp

theorem count_append_one {α : Type} [BEq α] (l : List α) (a k : α) :
    (l ++ [a]).count k = l.count k + (if a == k then 1 else 0) := by
  rw [List.count_append, List.count_singleton]

end AgentRuntime

namespace AgentRuntime

theorem toolCallKey_fst (tc : ToolCall) : (toolCallKey tc).1 = tc.function.name :=
  rfl

theorem key_beq_false {k k' : CallKey} (h : k' ≠ k) :
    (k'.1 == k.1 && k'.2 == k.2) = false := by
  rcases hb : (k'.1 == k.1 && k'.2 == k.2) with _ | _
  · rfl
  · exfalso
    rw [Bool.and_eq_true, beq_iff_eq, beq_iff_eq] at hb
    exact h (Prod.ext hb.1 hb.2)

theorem count_append_self {α : Type} [BEq α] [LawfulBEq α] (l : List α)
    (a : α) : (l ++ [a]).count a = l.count a + 1 := by
  simp [List.count_append]

theorem count_append_ne {α : Type} [BEq α] [LawfulBEq α] (l : List α)
    (a k : α) (h : a ≠ k) : (l ++ [a]).count k = l.count k := by
  have hb : (a == k) = false := by
    rcases hb : (a == k) with _ | _
    · rfl
    · exact absurd (eq_of_beq hb) h
  simp [List.count_append, List.count_singleton, hb]

theorem processToolCallExec_inv (lc : ToolLoopDetectionConfig)
    (cfg : AgentConfig) (s : AgentLoopState) (tc : ToolCall)
    (tr : ToolCallTracker) (htr : s.tracker = some tr)
    (htrk : ∀ k : CallKey, trackerFind tr k =
      (firstDispatch s.dispatched k).map Json.str)
    (hd : ∀ k : CallKey,
      (s.dispatched.map Prod.fst).count k = min 1 (s.emitted.count k))
    (hs : ∀ k : CallKey, (s.suppressed.map Suppression.key).count k =
      s.emitted.count k - (s.dispatched.map Prod.fst).count k)
    (hcont : ∀ sup ∈ s.suppressed, ∃ r,
      firstDispatch s.dispatched sup.key = some r ∧
      sup.content = lc.get_message sup.key.1 (Json.str r) ∧
      ChatMessage.tool_result sup.call_id sup.content ∈ s.messages)
    (hev : s.events.countP AgentEvent.isLoopDetected = s.suppressed.length)
    (hrc : ∀ k : CallKey, k.2 ≠ hash_args [] → cfg.tools.isSome →
      s.registryCalls.count k = (s.dispatched.map Prod.fst).count k)
    (hck : trackerFind tr (toolCallKey tc) = none) :
    LoopInv lc cfg.tools (processToolCallExec cfg s tc) := by
  have hfd : firstDispatch s.dispatched (toolCallKey tc) = none := by
    have h := htrk (toolCallKey tc)
    rw [hck] at h
    rcases hfd' : firstDispatch s.dispatched (toolCallKey tc) with _ | r0
    · rfl
    · rw [hfd'] at h; exact Option.noConfusion h
  have hcd : (s.dispatched.map Prod.fst).count (toolCallKey tc) = 0 :=
    firstDispatch_none_count hfd
  have hce : s.emitted.count (toolCallKey tc) = 0 := by
    have h := hd (toolCallKey tc)
    omega
  have hcs : (s.suppressed.map Suppression.key).count (toolCallKey tc) = 0 := by
    have h := hs (toolCallKey tc)
    omega
  unfold processToolCallExec
  rw [htr]
  refine ⟨⟨tr.record_call tc.function.name
    (canonical_args_entries tc.function.arguments)
    (Json.str (Agent.execute_tool_call cfg.tools tc).1), rfl, ?_⟩,
    ?_, ?_, ?_, ?_, ?_⟩
  · intro k
    show trackerFind
        { history := tr.history ++ [(tc.function.name,
            hash_args (canonical_args_entries tc.function.arguments),
            Json.str (Agent.execute_tool_call cfg.tools tc).1)] } k =
      (firstDispatch (s.dispatched ++ [(toolCallKey tc,
        (Agent.execute_tool_call cfg.tools tc).1)]) k).map Json.str
    rw [trackerFind_append_one, firstDispatch_append_one]
    by_cases hkk : toolCallKey tc = k
    · subst hkk
      rw [hck, hfd]
      simp [toolCallKey]
    · have hb1 : (tc.function.name == k.1 &&
          hash_args (canonical_args_entries tc.function.arguments) == k.2) =
          false := key_beq_false hkk
      have hb2 : (toolCallKey tc == k) = false := by
        rcases hb : (toolCallKey tc == k) with _ | _
        · rfl
        · exact absurd (eq_of_beq hb) hkk
      rw [hb1, hb2]
      simp only [Bool.false_eq_true, if_false, Option.or_none]
      exact htrk k
  · intro k
    show ((s.dispatched ++ [(toolCallKey tc,
        (Agent.execute_tool_call cfg.tools tc).1)]).map Prod.fst).count k =
      min 1 ((s.emitted ++ [toolCallKey tc]).count k)
    rw [List.map_append, List.map_cons, List.map_nil]
    by_cases hkk : toolCallKey tc = k
    · subst hkk
      rw [count_append_self, count_append_self]
      omega
    · rw [count_append_ne _ _ _ hkk, count_append_ne _ _ _ hkk]
      exact hd k
  · intro k
    show (s.suppressed.map Suppression.key).count k =
      (s.emitted ++ [toolCallKey tc]).count k -
        ((s.dispatched ++ [(toolCallKey tc,
          (Agent.execute_tool_call cfg.tools tc).1)]).map Prod.fst).count k
    rw [List.map_append, List.map_cons, List.map_nil]
    by_cases hkk : toolCallKey tc = k
    · subst hkk
      rw [count_append_self, count_append_self]
      omega
    · rw [count_append_ne _ _ _ hkk, count_append_ne _ _ _ hkk]
      exact hs k
  · intro sup hsup
    obtain ⟨r, hr, hc, hm⟩ := hcont sup hsup
    refine ⟨r, ?_, hc, ?_⟩
    · show firstDispatch (s.dispatched ++ [(toolCallKey tc,
        (Agent.execute_tool_call cfg.tools tc).1)]) sup.key = some r
      rw [firstDispatch_append_one, hr]
      rfl
    · exact List.mem_append_left _ hm
  · show (s.events ++ (Agent.execute_tool_call cfg.tools tc).2.1).countP
      AgentEvent.isLoopDetected = s.suppressed.length
    rw [List.countP_append, execute_tool_call_no_loop_events]
    omega
  · intro k hk2 hts
    show (s.registryCalls ++
        (if (Agent.execute_tool_call cfg.tools tc).2.2 then [toolCallKey tc]
         else [])).count k =
      ((s.dispatched ++ [(toolCallKey tc,
        (Agent.execute_tool_call cfg.tools tc).1)]).map Prod.fst).count k
    rw [List.map_append, List.map_cons, List.map_nil]
    by_cases hkk : toolCallKey tc = k
    · subst hkk
      have hcn : canonical_args_entries tc.function.arguments ≠ [] := by
        intro hnil
        apply hk2
        show hash_args (canonical_args_entries tc.function.arguments) =
          hash_args []
        rw [hnil]
      obtain ⟨reg, hreg⟩ := Option.isSome_iff_exists.mp hts
      have harg : tc.function.arguments =
          some (Json.obj (canonical_args_entries tc.function.arguments)) := by
        rcases canonical_args_entries_eq_nil_or_obj tc.function.arguments with
          h | h
        · exact absurd h hcn
        · exact h
      have hhit : (Agent.execute_tool_call cfg.tools tc).2.2 = true := by
        rw [hreg]
        exact execute_tool_call_hit reg tc _ harg
      rw [hhit]
      simp only [if_true]
      rw [count_append_self, count_append_self, hrc _ hk2 hts]
    · rw [count_append_ne _ _ _ hkk]
      rcases hhit : (Agent.execute_tool_call cfg.tools tc).2.2 with _ | _
      · simp only [Bool.false_eq_true, if_false, List.append_nil]
        exact hrc k hk2 hts
      · simp only [if_true]
        rw [count_append_ne _ _ _ hkk]
        exact hrc k hk2 hts

theorem LoopInv_frame (lc : ToolLoopDetectionConfig)
    (tools : Option ToolRegistry) (s s' : AgentLoopState)
    (htr : s'.tracker = s.tracker) (hem : s'.emitted = s.emitted)
    (hdi : s'.dispatched = s.dispatched)
    (hrg : s'.registryCalls = s.registryCalls)
    (hsu : s'.suppressed = s.suppressed)
    (hmsg : ∀ m ∈ s.messages, m ∈ s'.messages)
    (hevt : s'.events.countP AgentEvent.isLoopDetected =
      s.events.countP AgentEvent.isLoopDetected)
    (hinv : LoopInv lc tools s) : LoopInv lc tools s' := by
  obtain ⟨⟨tr, htr0, htrk⟩, hd, hs, hcont, hev, hrc⟩ := hinv
  refine ⟨⟨tr, by rw [htr, htr0], ?_⟩, ?_, ?_, ?_, ?_, ?_⟩
  · intro k
    rw [hdi]
    exact htrk k
  · intro k
    rw [hdi, hem]
    exact hd k
  · intro k
    rw [hsu, hem, hdi]
    exact hs k
  · intro sup hsup
    rw [hsu] at hsup
    obtain ⟨r, hr, hc, hm⟩ := hcont sup hsup
    exact ⟨r, by rw [hdi]; exact hr, hc, hmsg _ hm⟩
  · rw [hevt, hsu]
    exact hev
  · intro k hk2 hts
    rw [hrg, hdi]
    exact hrc k hk2 hts

theorem processToolCall_inv (lc : ToolLoopDetectionConfig)
    (cfg : AgentConfig) (s : AgentLoopState) (tc : ToolCall)
    (hld : cfg.tool_loop_detection = some lc) (hen : lc.enabled = true)
    (hinv : LoopInv lc cfg.tools s) :
    LoopInv lc cfg.tools (processToolCall cfg s tc) := by
  obtain ⟨⟨tr, htr, htrk⟩, hd, hs, hcont, hev, hrc⟩ := hinv
  simp only [processToolCall, htr, hld]
  rw [if_pos hen]
  rcases hck : tr.check_for_loop tc.function.name
      (canonical_args_entries tc.function.arguments) with _ | pr
  · exact processToolCallExec_inv lc cfg s tc tr htr htrk hd hs hcont hev hrc hck
  · have h := htrk (toolCallKey tc)
    rw [show trackerFind tr (toolCallKey tc) = some pr from hck] at h
    rcases hfd : firstDispatch s.dispatched (toolCallKey tc) with _ | r
    · rw [hfd] at h
      exact Option.noConfusion h
    · rw [hfd] at h
      have hpr : pr = Json.str r := by
        have h' : some pr = some (Json.str r) := h
        exact Option.some.inj h'
      subst hpr
      have hcd1 : (s.dispatched.map Prod.fst).count (toolCallKey tc) = 1 := by
        have h1 := firstDispatch_count_pos hfd
        have h2 := hd (toolCallKey tc)
        omega
      refine ⟨⟨tr, rfl, htrk⟩, ?_, ?_, ?_, ?_, ?_⟩
      · intro k
        show (s.dispatched.map Prod.fst).count k =
          min 1 ((s.emitted ++ [toolCallKey tc]).count k)
        by_cases hkk : toolCallKey tc = k
        · subst hkk
          rw [count_append_self]
          have h2 := hd (toolCallKey tc)
          omega
        · rw [count_append_ne _ _ _ hkk]
          exact hd k
      · intro k
        show ((s.suppressed ++ [Suppression.mk (toolCallKey tc) tc.id
            (lc.get_message tc.function.name (Json.str r))]).map
              Suppression.key).count k =
          (s.emitted ++ [toolCallKey tc]).count k -
            (s.dispatched.map Prod.fst).count k
        rw [List.map_append]
        show ((s.suppressed.map Suppression.key) ++ [toolCallKey tc]).count k =
          (s.emitted ++ [toolCallKey tc]).count k -
            (s.dispatched.map Prod.fst).count k
        by_cases hkk : toolCallKey tc = k
        · subst hkk
          rw [count_append_self, count_append_self, hcd1]
          have h3 := hs (toolCallKey tc)
          rw [hcd1] at h3
          have h2 := hd (toolCallKey tc)
          omega
        · rw [count_append_ne _ _ _ hkk, count_append_ne _ _ _ hkk]
          exact hs k
      · intro sup hsup
        show ∃ r', firstDispatch s.dispatched sup.key = some r' ∧
          sup.content = lc.get_message sup.key.1 (Json.str r') ∧
          ChatMessage.tool_result sup.call_id sup.content ∈
            s.messages ++ [ChatMessage.tool_result tc.id
              (lc.get_message tc.function.name (Json.str r))]
        rcases List.mem_append.mp hsup with hold | hnew
        · obtain ⟨r', hr', hc', hm'⟩ := hcont sup hold
          exact ⟨r', hr', hc', List.mem_append_left _ hm'⟩
        · have hsup' : sup = Suppression.mk (toolCallKey tc) tc.id
              (lc.get_message tc.function.name (Json.str r)) :=
            List.mem_singleton.mp hnew
          subst hsup'
          refine ⟨r, hfd, rfl, ?_⟩
          exact List.mem_append_right _ (List.mem_singleton.mpr rfl)
      · show (s.events ++ [AgentEvent.toolLoopDetected tc.function.name
            (lc.get_message tc.function.name (Json.str r))]).countP
              AgentEvent.isLoopDetected =
          (s.suppressed ++ [Suppression.mk (toolCallKey tc) tc.id
            (lc.get_message tc.function.name (Json.str r))]).length
        rw [List.countP_append, List.length_append, hev]
        rfl
      · intro k hk2 hts
        show s.registryCalls.count k = (s.dispatched.map Prod.fst).count k
        exact hrc k hk2 hts

theorem foldl_processToolCall_inv (lc : ToolLoopDetectionConfig)
    (cfg : AgentConfig) (hld : cfg.tool_loop_detection = some lc)
    (hen : lc.enabled = true) :
    ∀ (calls : List ToolCall) (s : AgentLoopState), LoopInv lc cfg.tools s →
      LoopInv lc cfg.tools (calls.foldl (processToolCall cfg) s) := by
  intro calls
  induction calls with
  | nil => exact fun s h => h
  | cons tc rest ih =>
      intro s h
      exact ih _ (processToolCall_inv lc cfg s tc hld hen h)

theorem agentFinalize_inv (lc : ToolLoopDetectionConfig)
    (tools : Option ToolRegistry) (response : ChatResponse)
    (s : AgentLoopState) (hinv : LoopInv lc tools s) :
    LoopInv lc tools (agentFinalize response s).2 := by
  have h : LoopInv lc tools
      { s with events := s.events ++ [AgentEvent.agentCompleted] } := by
    refine LoopInv_frame lc tools s
      { s with events := s.events ++ [AgentEvent.agentCompleted] }
      rfl rfl rfl rfl rfl (fun m hm => hm) ?_ hinv
    show (s.events ++ [AgentEvent.agentCompleted]).countP
      AgentEvent.isLoopDetected = s.events.countP AgentEvent.isLoopDetected
    rw [List.countP_append]
    rfl
  exact h

theorem agentLoop_inv (lc : ToolLoopDetectionConfig) (cfg : AgentConfig)
    (client : Nat → Except String ChatResponse)
    (hld : cfg.tool_loop_detection = some lc) (hen : lc.enabled = true)
    (iteration : Nat) (s : AgentLoopState) :
    LoopInv lc cfg.tools s →
      LoopInv lc cfg.tools (agentLoop cfg client iteration s).2 := by
  induction iteration, s using agentLoop.induct cfg client with
  | case1 iteration s iter hgt =>
      intro hinv
      have hiter : iter = iteration + 1 := rfl
      rw [hiter] at hgt
      rw [agentLoop, dif_pos hgt]
      exact hinv
  | case2 iteration s iter hnot response hok calls htc hempty =>
      intro hinv
      have hiter : iter = iteration + 1 := rfl
      rw [hiter] at hnot hok
      rw [agentLoop, dif_neg hnot]
      simp only [hok, htc, hempty, if_true]
      refine agentFinalize_inv lc cfg.tools response _ ?_
      refine LoopInv_frame lc cfg.tools s
        { s with
          events := (s.events ++ [AgentEvent.llmRequestStarted (iteration + 1)])
            ++ [AgentEvent.llmRequestCompleted],
          modelCalls := s.modelCalls + 1 }
        rfl rfl rfl rfl rfl (fun m hm => hm) ?_ hinv
      show ((s.events ++ [AgentEvent.llmRequestStarted (iteration + 1)])
          ++ [AgentEvent.llmRequestCompleted]).countP
        AgentEvent.isLoopDetected = s.events.countP AgentEvent.isLoopDetected
      rw [List.countP_append, List.countP_append]
      rfl
  | case3 iteration s iter hnot s1 response hok s2 calls htc hne s3 s4 ih =>
      intro hinv
      have hiter : iter = iteration + 1 := rfl
      rw [hiter] at hnot hok ih
      rw [agentLoop, dif_neg hnot]
      simp only [hok, htc]
      rw [if_neg hne]
      have hinv3 : LoopInv lc cfg.tools s3 := by
        refine LoopInv_frame lc cfg.tools s s3 rfl rfl rfl rfl rfl
          (fun m hm => ?_) ?_ hinv
        · show m ∈ s.messages ++
            [ChatMessage.assistant_with_tool_calls response.content calls]
          exact List.mem_append_left _ hm
        · show ((s.events ++ [AgentEvent.llmRequestStarted (iteration + 1)])
              ++ [AgentEvent.llmRequestCompleted]).countP
            AgentEvent.isLoopDetected = s.events.countP AgentEvent.isLoopDetected
          rw [List.countP_append, List.countP_append]
          rfl
      have hinv4 : LoopInv lc cfg.tools s4 := by
        rw [show s4 = List.foldl (processToolCall cfg) s3 calls from rfl]
        exact foldl_processToolCall_inv lc cfg hld hen calls s3 hinv3
      exact ih hinv4
  | case4 iteration s iter hnot response hok htc =>
      intro hinv
      have hiter : iter = iteration + 1 := rfl
      rw [hiter] at hnot hok
      rw [agentLoop, dif_neg hnot]
      simp only [hok, htc]
      refine agentFinalize_inv lc cfg.tools response _ ?_
      refine LoopInv_frame lc cfg.tools s
        { s with
          events := (s.events ++ [AgentEvent.llmRequestStarted (iteration + 1)])
            ++ [AgentEvent.llmRequestCompleted],
          modelCalls := s.modelCalls + 1 }
        rfl rfl rfl rfl rfl (fun m hm => hm) ?_ hinv
      show ((s.events ++ [AgentEvent.llmRequestStarted (iteration + 1)])
          ++ [AgentEvent.llmRequestCompleted]).countP
        AgentEvent.isLoopDetected = s.events.countP AgentEvent.isLoopDetected
      rw [List.countP_append, List.countP_append]
      rfl
  | case5 iteration s iter hnot e herr =>
      intro hinv
      have hiter : iter = iteration + 1 := rfl
      rw [hiter] at hnot herr
      rw [agentLoop, dif_neg hnot]
      simp only [herr]
      refine LoopInv_frame lc cfg.tools s
        { s with
          events := (s.events ++ [AgentEvent.llmRequestStarted (iteration + 1)])
            ++ [AgentEvent.llmRequestFailed e, AgentEvent.agentFailed e],
          modelCalls := s.modelCalls + 1 }
        rfl rfl rfl rfl rfl (fun m hm => hm) ?_ hinv
      show ((s.events ++ [AgentEvent.llmRequestStarted (iteration + 1)])
          ++ [AgentEvent.llmRequestFailed e, AgentEvent.agentFailed e]).countP
        AgentEvent.isLoopDetected = s.events.countP AgentEvent.isLoopDetected
      rw [List.countP_append, List.countP_append]
      rfl

theorem LoopInv_start (lc : ToolLoopDetectionConfig)
    (tools : Option ToolRegistry) (msgs : List ChatMessage) (t n : Nat) :
    LoopInv lc tools
      { messages := msgs, total_tool_calls := t,
        tracker := some ToolCallTracker.new,
        events := [AgentEvent.processing], modelCalls := n,
        emitted := [], dispatched := [], registryCalls := [],
        suppressed := [] } := by
  refine ⟨⟨ToolCallTracker.new, rfl, fun k => rfl⟩, fun k => rfl, fun k => rfl,
    fun sup hsup => absurd hsup (List.not_mem_nil sup), rfl, fun k _ _ => rfl⟩

theorem execute_with_events_inv (lc : ToolLoopDetectionConfig)
    (cfg : AgentConfig) (input : AgentInput)
    (client : Nat → Except String ChatResponse)
    (hld : cfg.tool_loop_detection = some lc) (hen : lc.enabled = true) :
    LoopInv lc cfg.tools
      (Agent.execute_with_events cfg input (some client)).2 := by
  show LoopInv lc cfg.tools (agentLoop cfg client 0
    { messages := [ChatMessage.system cfg.system_prompt,
        ChatMessage.user (Json.serializeInput input.data)],
      total_tool_calls := 0,
      tracker := if cfg.tool_loop_detection.isSome then
        some ToolCallTracker.new else none,
      events := [AgentEvent.processing], modelCalls := 0,
      emitted := [], dispatched := [], registryCalls := [],
      suppressed := [] }).2
  rw [hld]
  exact agentLoop_inv lc cfg client hld hen 0 _
    (LoopInv_start lc cfg.tools _ 0 0)

/-- **C10.** Argument canonicalisation for loop detection: a tool call whose
arguments do not parse to a JSON object (unparseable, or a non-object value)
canonicalises to the empty argument map, so any two such calls to the same
tool — or one of them and a genuinely empty-object call — share the same
call key; in a run with loop detection enabled the duplicates beyond the
first call under that key are suppressed, each carrying the configured
message built from the first call's recorded result (not a parse-error
message of its own). -/
theorem c10_malformed_args (cfg : AgentConfig) (input : AgentInput)
    (client : Nat → Except String ChatResponse)
    (lc : ToolLoopDetectionConfig)
    (hld : cfg.tool_loop_detection = some lc) (hen : lc.enabled = true)
    (t : String) :
    (∀ (arguments : Option Json), (∀ kvs, arguments ≠ some (Json.obj kvs)) →
      canonical_args_entries arguments = []) ∧
    (∀ tc1 tc2 : ToolCall, tc1.function.name = tc2.function.name →
      (∀ kvs, tc1.function.arguments ≠ some (Json.obj kvs)) →
      (∀ kvs, tc2.function.arguments ≠ some (Json.obj kvs)) →
      toolCallKey tc1 = toolCallKey tc2) ∧
    (let st := (Agent.execute_with_events cfg input (some client)).2
     let k : CallKey := (t, hash_args [])
     (st.suppressed.map Suppression.key).count k =
       st.emitted.count k - min 1 (st.emitted.count k) ∧
     ∀ sup ∈ st.suppressed, sup.key = k →
       ∃ r, firstDispatch st.dispatched k = some r ∧
         sup.content = lc.get_message t (Json.str r) ∧
         ChatMessage.tool_result sup.call_id sup.content ∈ st.messages) := by
  have hA : ∀ (arguments : Option Json),
      (∀ kvs, arguments ≠ some (Json.obj kvs)) →
      canonical_args_entries arguments = [] := by
    intro arguments h
    rcases canonical_args_entries_eq_nil_or_obj arguments with h0 | h0
    · exact h0
    · exact absurd h0 (h _)
  obtain ⟨⟨tr, htr, htrk⟩, hd, hs, hcont, hev, hrc⟩ :=
    execute_with_events_inv lc cfg input client hld hen
  refine ⟨hA, ?_, ?_, ?_⟩
  · intro tc1 tc2 hn h1 h2
    show (tc1.function.name,
        hash_args (canonical_args_entries tc1.function.arguments)) =
      (tc2.function.name,
        hash_args (canonical_args_entries tc2.function.arguments))
    rw [hn, hA _ h1, hA _ h2]
  · exact (hs (t, hash_args [])).trans (by rw [hd (t, hash_args [])])
  · intro sup hsup hkey
    obtain ⟨r, hr, hc, hm⟩ := hcont sup hsup
    rw [hkey] at hr hc
    exact ⟨r, hr, hc, hm⟩

/-- C10 witness: the theorem applied to the concrete run configuration with
tool name `search`. -/
theorem c10_malformed_args_witness :
    (∀ (arguments : Option Json), (∀ kvs, arguments ≠ some (Json.obj kvs)) →
      canonical_args_entries arguments = []) ∧
    (∀ tc1 tc2 : ToolCall, tc1.function.name = tc2.function.name →
      (∀ kvs, tc1.function.arguments ≠ some (Json.obj kvs)) →
      (∀ kvs, tc2.function.arguments ≠ some (Json.obj kvs)) →
      toolCallKey tc1 = toolCallKey tc2) ∧
    (let st := (Agent.execute_with_events loopCfg { data := Json.str "in" }
        (some loopClient)).2
     let k : CallKey := ("search", hash_args [])
     (st.suppressed.map Suppression.key).count k =
       st.emitted.count k - min 1 (st.emitted.count k) ∧
     ∀ sup ∈ st.suppressed, sup.key = k →
       ∃ r, firstDispatch st.dispatched k = some r ∧
         sup.content = ToolLoopDetectionConfig.get_message
           { enabled := true, custom_message := none } "search" (Json.str r) ∧
         ChatMessage.tool_result sup.call_id sup.content ∈ st.messages) :=
  c10_malformed_args loopCfg { data := Json.str "in" } loopClient
    { enabled := true, custom_message := none } rfl rfl "search"

end AgentRuntime
